import Mathlib

/-!
Verification development for the "Minimal DOM" facade (`dom` in the source).

The source is a thin browser-DOM utility layer.  We give a shallow embedding
of its own logic: JavaScript strings are modelled as `List Char` (`Str`)
where character-level manipulation matters and as Lean `String` elsewhere;
JavaScript objects with optional fields are structures of `Option` fields;
fallible results (`null` returns, thrown errors) are `Option`/`Except`.
External substrate operations (the native element tree, the CSS selector
engine, the HTML parser, `classList`, `dispatchEvent`, `cloneNode`) are
modelled by the minimal behaviour documented at the MDN pages the source
links to, or passed in as explicit function parameters where they are fully
opaque; each such place is called out in its doc comment.
-/

namespace Minidom

/-- JavaScript strings, modelled character by character. -/
abbrev Str := List Char

/-- Whitespace as recognised by `String.prototype.trim` (restricted to the
ASCII whitespace characters relevant to the model). -/
def wsChar (c : Char) : Bool := c == ' ' || c == '\t' || c == '\n' || c == '\r'

/-- `String.prototype.trim`: drop whitespace from both ends. -/
def jsTrim (s : Str) : Str := ((s.dropWhile wsChar).reverse.dropWhile wsChar).reverse

/-- `String.prototype.split(' ')` (split on every single space, keeping
empty pieces), used by `resolveNames` in the source. -/
def splitChar : Str → List Str
  | [] => [[]]
  | c :: rest =>
    match splitChar rest with
    | [] => [[]]
    | h :: t => if c == ' ' then [] :: h :: t else (c :: h) :: t

/-- `String.prototype.split(/ +/)`.  On strings without leading or trailing
spaces (the only use site applies it to a trimmed string) a split on runs of
spaces returns the non-empty chunks, except that the empty string yields
`[""]` (a regex split with no match returns the whole input). -/
def splitSpaceRuns (s : Str) : List Str :=
  if s = [] then [[]] else (splitChar s).filter (fun p => p ≠ [])

/-- `Array.prototype.join(' ')`. -/
def joinSp (l : List Str) : Str := List.intercalate [' '] l

/-! ## Node classification (`nodeTypes`, `dom.getType`, `dom.isNode`) -/

/-- The `nodeTypes` array from the source, index 0 to 12. -/
def nodeTypes : List String :=
  ["", "element", "attribute", "text", "cdata", "reference", "entity",
   "instruction", "comment", "document", "doctype", "fragment", "notation"]

/-- `dom.getType`: `nodeTypes[node.nodeType] || ''`.  An out-of-range index
reads `undefined`, and `undefined || ''` (as well as `'' || ''` at index 0)
is `''`; a negative index is likewise out of range. -/
def getType (t : Int) : String :=
  if 0 ≤ t then nodeTypes.getD t.toNat "" else ""

/-- JavaScript values, with objects carrying an optional `nodeType` field. -/
inductive JSVal where
  | nullV
  | undefV
  | numV (n : Int)
  | strV (s : String)
  | boolV (b : Bool)
  | objV (nodeType : Option Int)
deriving DecidableEq

/-- `isObject`: `value !== null && typeof value === 'object'`. -/
def isObject : JSVal → Bool
  | .objV _ => true
  | _ => false

/-- Reading `value.nodeType` (absent field reads `undefined`, i.e. `none`). -/
def nodeTypeOf : JSVal → Option Int
  | .objV t => t
  | _ => none

/-- `v >= b` in JavaScript where `v` may be `undefined`: comparing
`undefined` is `false` (NaN comparison). -/
def jsGE (v : Option Int) (b : Int) : Bool :=
  match v with
  | some n => b ≤ n
  | none => false

/-- `v <= b` in JavaScript where `v` may be `undefined`. -/
def jsLE (v : Option Int) (b : Int) : Bool :=
  match v with
  | some n => n ≤ b
  | none => false

/-- `dom.isNode`: `isObject(value) && value.nodeType >= 1 && value.nodeType <= 12`. -/
def isNode (v : JSVal) : Bool :=
  isObject v && jsGE (nodeTypeOf v) 1 && jsLE (nodeTypeOf v) 12

/-! ## Fragment parsing fallback (`createFragment`, `getNodeFactory`)

Nodes are identified by `Nat` tags; the external HTML parser and the
`createContextualFragment` primitive are opaque and passed as functions. -/

/-- The drain loop of `createFragment`:
`while (factory.firstChild) fragment.appendChild(factory.firstChild)`.
`appendChild` moves the node: it leaves the factory and is appended at the
end of the fragment.  First component: fragment children; second: the
factory children remaining after the loop. -/
def drainAll : List Nat → List Nat → List Nat × List Nat
  | frag, [] => (frag, [])
  | frag, c :: rest => drainAll (frag ++ [c]) rest

/-- `createFragment(html)`.  `!html` (here: the empty string) returns a new
empty fragment without touching the scratch element.  Otherwise, when the
cached range exposes `createContextualFragment`, that external primitive is
used (`ccf`) and the scratch element is again untouched.  Otherwise the
fallback assigns `factory.innerHTML = html` — which replaces any previous
children of the scratch element with the parse result `parseHTML html` —
and then drains the factory into a fresh fragment.  The result pairs the
fragment children with the scratch element's children after the call. -/
def createFragmentM (hasCCF : Bool) (ccf : String → List Nat)
    (parseHTML : String → List Nat) (factoryPrev : List Nat) (html : String) :
    List Nat × List Nat :=
  if html = "" then ([], factoryPrev)
  else if hasCCF then (ccf html, factoryPrev)
  else drainAll [] (parseHTML html)

/-! ## Event construction (`dom.event`, `getEventModifiers`) -/

/-- The `config` object of `dom.event`: every field may be absent
(`undefined`, modelled by `none`).  Reference-valued fields (`view`,
`relatedTarget`) hold opaque handles modelled as `Nat`.  The source field
`repeat` is spelled `repeatKey` here because `repeat` is reserved in Lean. -/
structure EventConfig where
  view : Option Nat := none
  detail : Option Int := none
  key : Option String := none
  location : Option Int := none
  ctrlKey : Option Bool := none
  altKey : Option Bool := none
  shiftKey : Option Bool := none
  metaKey : Option Bool := none
  repeatKey : Option Bool := none
  screenX : Option Int := none
  screenY : Option Int := none
  clientX : Option Int := none
  clientY : Option Int := none
  button : Option Int := none
  relatedTarget : Option Nat := none
  deltaX : Option Int := none
  deltaY : Option Int := none
  deltaZ : Option Int := none
  deltaMode : Option Int := none
  bubbles : Option Bool := none
  cancelable : Option Bool := none
deriving DecidableEq

/-- `v || d` for a possibly-absent number (`0` and `undefined` are falsy). -/
def jsOrInt (v : Option Int) (d : Int) : Int :=
  match v with
  | some n => if n = 0 then d else n
  | none => d

/-- `v || d` for a possibly-absent string (`''` and `undefined` are falsy). -/
def jsOrStr (v : Option String) (d : String) : String :=
  match v with
  | some s => if s = "" then d else s
  | none => d

/-- `v || d` for a possibly-absent boolean (`false` and `undefined` are falsy). -/
def jsOrBool (v : Option Bool) (d : Bool) : Bool :=
  match v with
  | some b => if b then b else d
  | none => d

/-- Truthiness of a possibly-absent boolean. -/
def jsTruthyB (v : Option Bool) : Bool := v == some true

/-- One positional argument of a legacy `init*Event` call / one observable
event field. -/
inductive EvArg where
  | nul
  | num (n : Int)
  | str (s : String)
  | bl (b : Bool)
  | ref (r : Nat)
deriving DecidableEq

/-- `v || null` for a reference field (object references are truthy). -/
def refArg : Option Nat → EvArg
  | none => .nul
  | some r => .ref r

/-- `config.detail || null` in the `custom` case: `detail` may hold any
value there; a falsy number (0) also falls back to `null`. -/
def customDetailArg (v : Option Int) : EvArg :=
  match v with
  | some n => if n = 0 then .nul else .num n
  | none => .nul

/-- `getEventModifiers`: space-joined list built by pushing `'Control'`,
`'Alt'`, `'Shift'`, `'Meta'` for each truthy config flag, in that order. -/
def getEventModifiers (cfg : EventConfig) : String :=
  String.intercalate " "
    ((if jsTruthyB cfg.ctrlKey then ["Control"] else []) ++
     (if jsTruthyB cfg.altKey then ["Alt"] else []) ++
     (if jsTruthyB cfg.shiftKey then ["Shift"] else []) ++
     (if jsTruthyB cfg.metaKey then ["Meta"] else []))

/-- The observable event object produced by `dom.event`.  `ctorName` is the
native constructor name (`type + 'Event'`), `args` the ordered positional
argument list the source assembles; the modern `new window[type]` path and
the legacy `createEvent`/`init*` path produce events with these same
observable fields (the dual path is an engine-capability fallback only, not
a semantic difference). -/
structure EventObj where
  ctorName : String
  evName : String
  bubbles : Bool
  cancelable : Bool
  args : List EvArg
deriving DecidableEq

/-- The seven recognised kinds of `dom.event`'s `switch`. -/
def recognizedKinds : List String :=
  ["event", "ui", "keyboard", "mouse", "wheel", "focus", "custom"]

/-- `dom.event(type, name, config)`: the `switch(type)` from the source;
the `default` branch returns `null` (here `none`) without constructing
anything, so an unknown kind can raise no exception. -/
def event (kind : String) (name : String) (cfg : EventConfig) : Option EventObj :=
  if kind = "event" then
    some { ctorName := "Event", evName := name,
           bubbles := jsOrBool cfg.bubbles false,
           cancelable := jsOrBool cfg.cancelable false,
           args := [] }
  else if kind = "ui" then
    some { ctorName := "UIEvent", evName := name,
           bubbles := jsOrBool cfg.bubbles false,
           cancelable := jsOrBool cfg.cancelable false,
           args := [refArg cfg.view, .num (jsOrInt cfg.detail 0)] }
  else if kind = "keyboard" then
    some { ctorName := "KeyboardEvent", evName := name,
           bubbles := jsOrBool cfg.bubbles false,
           cancelable := jsOrBool cfg.cancelable false,
           args := [refArg cfg.view,
                    .str (jsOrStr cfg.key ""),
                    .num (jsOrInt cfg.location 0),
                    .str (getEventModifiers cfg),
                    .bl (jsOrBool cfg.repeatKey false),
                    .str ""] }
  else if kind = "mouse" then
    some { ctorName := "MouseEvent", evName := name,
           bubbles := jsOrBool cfg.bubbles false,
           cancelable := jsOrBool cfg.cancelable false,
           args := [refArg cfg.view,
                    .num (jsOrInt cfg.detail 0),
                    .num (jsOrInt cfg.screenX 0),
                    .num (jsOrInt cfg.screenY 0),
                    .num (jsOrInt cfg.clientX 0),
                    .num (jsOrInt cfg.clientY 0),
                    .bl (jsOrBool cfg.ctrlKey false),
                    .bl (jsOrBool cfg.altKey false),
                    .bl (jsOrBool cfg.shiftKey false),
                    .bl (jsOrBool cfg.metaKey false),
                    .num (jsOrInt cfg.button 0),
                    refArg cfg.relatedTarget] }
  else if kind = "wheel" then
    some { ctorName := "WheelEvent", evName := name,
           bubbles := jsOrBool cfg.bubbles false,
           cancelable := jsOrBool cfg.cancelable false,
           args := [refArg cfg.view,
                    .num (jsOrInt cfg.detail 0),
                    .num (jsOrInt cfg.screenX 0),
                    .num (jsOrInt cfg.screenY 0),
                    .num (jsOrInt cfg.clientX 0),
                    .num (jsOrInt cfg.clientY 0),
                    .num (jsOrInt cfg.button 0),
                    refArg cfg.relatedTarget,
                    .str (getEventModifiers cfg),
                    .num (jsOrInt cfg.deltaX 0),
                    .num (jsOrInt cfg.deltaY 0),
                    .num (jsOrInt cfg.deltaZ 0),
                    .num (jsOrInt cfg.deltaMode 0)] }
  else if kind = "focus" then
    some { ctorName := "FocusEvent", evName := name,
           bubbles := jsOrBool cfg.bubbles false,
           cancelable := jsOrBool cfg.cancelable false,
           args := [refArg cfg.view,
                    .num (jsOrInt cfg.detail 0),
                    refArg cfg.relatedTarget] }
  else if kind = "custom" then
    some { ctorName := "CustomEvent", evName := name,
           bubbles := jsOrBool cfg.bubbles false,
           cancelable := jsOrBool cfg.cancelable false,
           args := [customDetailArg cfg.detail] }
  else none

/-! ## `dom.matches` (vendor-capability probing) -/

/-- An element as seen by `dom.matches`: the six probed method slots, each
possibly absent; a present slot is an opaque selector-matching function.
The source field `matches` is spelled `matchesStd` because `matches` is
reserved in Lean. -/
structure ElemMatch where
  matchesStd : Option (String → Bool) := none
  matchesSelector : Option (String → Bool) := none
  webkitMatchesSelector : Option (String → Bool) := none
  mozMatchesSelector : Option (String → Bool) := none
  msMatchesSelector : Option (String → Bool) := none
  oMatchesSelector : Option (String → Bool) := none

/-- The `||` chain of `dom.matches`: first available capability, probed in
source order (function references are truthy exactly when present). -/
def firstCap (el : ElemMatch) : Option (String → Bool) :=
  match el.matchesStd with
  | some f => some f
  | none =>
    match el.matchesSelector with
    | some f => some f
    | none =>
      match el.webkitMatchesSelector with
      | some f => some f
      | none =>
        match el.mozMatchesSelector with
        | some f => some f
        | none =>
          match el.msMatchesSelector with
          | some f => some f
          | none => el.oMatchesSelector

/-- `dom.matches(element, selector)`: throw
`Error('Method matches() is not supported')` when no capability exists,
otherwise call the first available one on the element. -/
def matchesOp (el : ElemMatch) (selector : String) : Except String Bool :=
  match firstCap el with
  | none => .error "Method matches() is not supported"
  | some f => .ok (f selector)

/-! ## `dom.range`

Ranges over an abstract node heap: nodes are `Nat` handles, `docNode` is the
document.  `document.createRange()` is external; per the DOM standard (the
MDN page the source links) it returns a range with both boundary points at
`(document, 0)`.  `selectNode` needs the node's parent and its index among
the parent's children, supplied as functions `parentOf`/`indexIn`. -/

structure RangeR where
  startContainer : Nat
  startOffset : Nat
  endContainer : Nat
  endOffset : Nat
deriving DecidableEq

/-- `document.createRange()` (external substrate): both boundary points at
the start of the document. -/
def createRange (docNode : Nat) : RangeR :=
  { startContainer := docNode, startOffset := 0,
    endContainer := docNode, endOffset := 0 }

/-- `Range.selectNode(n)` (external substrate): start boundary
`(parent n, index n)`, end boundary `(parent n, index n + 1)`. -/
def selectNodeR (parentOf indexIn : Nat → Nat) (r : RangeR) (n : Nat) : RangeR :=
  { r with startContainer := parentOf n, startOffset := indexIn n,
           endContainer := parentOf n, endOffset := indexIn n + 1 }

/-- `Range.setStart`. -/
def setStartR (r : RangeR) (n off : Nat) : RangeR :=
  { r with startContainer := n, startOffset := off }

/-- `Range.setEnd`. -/
def setEndR (r : RangeR) (n off : Nat) : RangeR :=
  { r with endContainer := n, endOffset := off }

/-- `dom.range(startNode, startOffset, endNode, endOffset)` with the
source's branching: no start node → the fresh range; start without end →
`selectNode`; both → explicit boundaries. -/
def rangeOp (docNode : Nat) (parentOf indexIn : Nat → Nat)
    (startNode : Option Nat) (startOffset : Nat)
    (endNode : Option Nat) (endOffset : Nat) : RangeR :=
  let r := createRange docNode
  match startNode with
  | some s =>
    match endNode with
    | some e => setEndR (setStartR r s startOffset) e endOffset
    | none => selectNodeR parentOf indexIn r s
  | none => r

/-- `Range.collapsed`: start and end boundary points coincide. -/
def collapsedR (r : RangeR) : Bool :=
  r.startContainer == r.endContainer && r.startOffset == r.endOffset

/-! ## Class-attribute manipulation (fallback branch of the class helpers)

The source's class helpers prefer the native `classList` (external
substrate); when it is absent they manipulate the raw `className` string.
The definitions below are the translation of those fallback branches and of
`getClassNames`/`resolveNames`. -/

/-- `getClassNames(element)`: `element.className.trim().split(/ +/)`. -/
def getClassTokens (className : Str) : List Str :=
  splitSpaceRuns (jsTrim className)

/-- The loop body of `addClass`'s fallback: for each name, push when
`indexOf < 0` and flag the update. -/
def addGo (cur : List Str) (names : List Str) : List Str × Bool :=
  names.foldl (fun acc n => if n ∈ acc.1 then acc else (acc.1 ++ [n], true))
    (cur, false)

/-- The loop body of `removeClass`'s fallback: for each name with
`indexOf >= 0`, splice out that first occurrence and flag the update. -/
def removeGo (cur : List Str) (names : List Str) : List Str × Bool :=
  names.foldl (fun acc n => if n ∈ acc.1 then (acc.1.erase n, true) else acc)
    (cur, false)

/-- One step of `toggleClass`'s fallback: push when absent, splice out the
first occurrence when present. -/
def togStep (cur : List Str) (n : Str) : List Str :=
  if n ∈ cur then cur.erase n else cur ++ [n]

/-- The loop of `toggleClass`'s fallback. -/
def togGo (cur : List Str) (names : List Str) : List Str :=
  names.foldl togStep cur

/-- The `classNames` argument of the class helpers: a space-separated
string or an array of names. -/
inductive ClassNames where
  | strI (s : Str)
  | listI (l : List Str)

/-- `resolveNames`: a string is split with `split(' ')`, an array is used
as is. -/
def resolveNames : ClassNames → List Str
  | .strI s => splitChar s
  | .listI l => l

/-! ## Elements and the document model

One element record serves the class, data, attribute, listener and tree
operations.  `id` is the node's identity (object identity in JavaScript);
`inserts` records `insertAdjacentHTML` calls, whose markup parsing is
external; `innerHTML`/`textContent` record the markup/text sinks of
`setup`/`clear`. -/

structure Elem where
  id : Nat
  className : Str := []
  attrs : List (String × String) := []
  dataset : Option (List (String × String)) := none
  listeners : List (String × Nat) := []
  textContent : String := ""
  innerHTML : String := ""
  inserts : List (String × String) := []
deriving DecidableEq

/-- `addClass` fallback branch on an element without native `classList`:
read the tokens, run the loop, and write `className` back only when the
update flag is set.  The second component is that flag (whether a
`className` write happened). -/
def addClassFb (el : Elem) (names : ClassNames) : Elem × Bool :=
  let r := addGo (getClassTokens el.className) (resolveNames names)
  (if r.2 then { el with className := joinSp r.1 } else el, r.2)

/-- `removeClass` fallback branch, with its write flag. -/
def removeClassFb (el : Elem) (names : ClassNames) : Elem × Bool :=
  let r := removeGo (getClassTokens el.className) (resolveNames names)
  (if r.2 then { el with className := joinSp r.1 } else el, r.2)

/-- `toggleClass` fallback branch: the loop runs and `className` is then
assigned unconditionally (no update flag in the source). -/
def toggleClassFb (el : Elem) (names : ClassNames) : Elem :=
  { el with className := joinSp (togGo (getClassTokens el.className) (resolveNames names)) }

/-- `hasClass` fallback branch: every listed name must be present
(`every` with `indexOf >= 0`). -/
def hasClassFb (el : Elem) (names : ClassNames) : Bool :=
  (resolveNames names).all (fun n => n ∈ getClassTokens el.className)

/-- A well-formed class name: non-empty and whitespace-free (the shape CSS
class names take in a class attribute). -/
def wfName (n : Str) : Bool := !n.isEmpty && n.all (fun c => !wsChar c)

/-- A class attribute in good shape for the fallback helpers: its token
list is either the single empty token (empty/blank attribute) or a
duplicate-free list of well-formed names. -/
def tokensOK (el : Elem) : Prop :=
  getClassTokens el.className = [[]] ∨
  ((getClassTokens el.className).Nodup ∧
    ∀ n ∈ getClassTokens el.className, wfName n = true)

instance (el : Elem) : Decidable (tokensOK el) := by
  unfold tokensOK
  infer_instance

/-- An element whose class attribute is `"a"`. -/
def sampleElA : Elem := { id := 4, className := ['a'] }

/-- An element whose class attribute is `"a a"` (a duplicated token). -/
def sampleElDup : Elem := { id := 5, className := ['a', ' ', 'a'] }

/-- An element whose class attribute is `"a "` (a trailing space). -/
def sampleElTrail : Elem := { id := 6, className := ['a', ' '] }

/-! ## Attribute and data helpers (`setup`, `setData`, `getData`, `toDataKey`) -/

/-- Association-list update with JavaScript property/attribute semantics:
overwrite an existing key in place, otherwise append. -/
def setAssoc {α β : Type} [BEq α] (m : List (α × β)) (k : α) (v : β) : List (α × β) :=
  if m.any (fun kv => kv.1 == k) then
    m.map (fun kv => if kv.1 == k then (k, v) else kv)
  else m ++ [(k, v)]

/-- `Element.setAttribute` (external substrate) on the attribute map. -/
def setAttributeE (el : Elem) (name value : String) : Elem :=
  { el with attrs := setAssoc el.attrs name value }

/-- `Element.getAttribute` (external substrate): `null` (`none`) when absent. -/
def getAttributeE (el : Elem) (name : String) : Option String :=
  (el.attrs.find? (fun kv => kv.1 == name)).map (fun kv => kv.2)

/-- `toDataKey`: `'data-' + key.replace(/[A-Z]/g, c => '-' + c.toLowerCase())`. -/
def toDataKeyL (k : Str) : Str :=
  "data-".data ++ k.flatMap (fun c => if c.isUpper then ['-', c.toLower] else [c])

/-- `toDataKey` on Lean strings. -/
def toDataKey (k : String) : String := String.mk (toDataKeyL k.data)

/-- Primitive values passed to `setData` (the source stringifies with
`'' + value`). -/
inductive JSPrim where
  | boolP (b : Bool)
  | numP (n : Int)
  | strP (s : String)
deriving DecidableEq

/-- `'' + value` for the primitives above. -/
def jsToString : JSPrim → String
  | .boolP true => "true"
  | .boolP false => "false"
  | .numP n => toString n
  | .strP s => s

/-- `dom.setData`: prefer the native `dataset` capability, else write the
kebab-cased `data-*` attribute; the value is stringified either way. -/
def setDataE (el : Elem) (key : String) (v : JSPrim) : Elem :=
  match el.dataset with
  | some ds => { el with dataset := some (setAssoc ds key (jsToString v)) }
  | none => setAttributeE el (toDataKey key) (jsToString v)

/-- `dom.getData`: read `dataset[key]` when the capability exists
(`undefined`, i.e. `none`, when missing), else read the `data-*` attribute. -/
def getDataE (el : Elem) (key : String) : Option String :=
  match el.dataset with
  | some ds => (ds.find? (fun kv => kv.1 == key)).map (fun kv => kv.2)
  | none => getAttributeE el (toDataKey key)

/-! ## Document model and `resolveNode` dispatch

`DocM` models the external tree substrate: the elements in document order
(the order native `querySelector` searches), a parent map and per-parent
child lists.  The CSS engine is opaque: a selector is modelled as its
induced matching predicate `Sel`. -/

structure DocM where
  elems : List Elem := []
  parentOf : List (Nat × Option Nat) := []
  childrenOf : List (Nat × List Nat) := []
deriving DecidableEq

/-- A CSS selector, as the matching predicate the external engine gives it. -/
abbrev Sel := Elem → Bool

/-- `document.querySelector` (external substrate): the first matching
element in document order, `null` when none matches. -/
def querySelector (doc : DocM) (sel : Sel) : Option Elem :=
  doc.elems.find? sel

/-- An argument that may be a node or a CSS selector string. -/
inductive NodeRef where
  | sel (s : Sel)
  | node (el : Elem)

/-- `resolveNode(node)`: a string is resolved with `dom.query(node)` (a
whole-document `querySelector`), anything else is returned as is. -/
def resolveNodeD (doc : DocM) : NodeRef → Option Elem
  | .sel s => querySelector doc s
  | .node el => some el

/-- Mutating an element in place (JavaScript object mutation): replace the
record carrying the same identity. -/
def updateDoc (doc : DocM) (el : Elem) : DocM :=
  { doc with elems := doc.elems.map (fun e => if e.id == el.id then el else e) }

/-- `node.parentNode`: `null` for unknown or detached nodes. -/
def parentNodeD (doc : DocM) (nid : Nat) : Option Nat :=
  (doc.parentOf.lookup nid).getD none

/-- The child list of a node. -/
def childIds (doc : DocM) (nid : Nat) : List Nat :=
  (doc.childrenOf.lookup nid).getD []

/-- `parent.children` as element records, in child order. -/
def childElems (doc : DocM) (nid : Nat) : List Elem :=
  (childIds doc nid).filterMap (fun c => doc.elems.find? (fun e => e.id == c))

/-- Detach a node from wherever it is: parent becomes `null` and it leaves
every child list (it occurs in at most its parent's). -/
def detachD (doc : DocM) (cid : Nat) : DocM :=
  { doc with
    parentOf := doc.parentOf.map (fun kv => if kv.1 == cid then (kv.1, none) else kv),
    childrenOf := doc.childrenOf.map (fun kv => (kv.1, kv.2.filter (fun x => x ≠ cid))) }

/-- `parent.appendChild(child)` (external substrate): the child is moved —
detached from any current parent and appended at the end of `parent`'s
child list. -/
def appendChildD (doc : DocM) (pid cid : Nat) : DocM :=
  let d := detachD doc cid
  { d with
    parentOf := setAssoc d.parentOf cid (some pid),
    childrenOf := setAssoc d.childrenOf pid (childIds d pid ++ [cid]) }

/-- `parent.insertBefore(child, ref)` (external substrate): the child is
moved in front of `ref` in `parent`'s child list. -/
def insertBeforeD (doc : DocM) (pid cid refId : Nat) : DocM :=
  let d := detachD doc cid
  { d with
    parentOf := setAssoc d.parentOf cid (some pid),
    childrenOf := setAssoc d.childrenOf pid
      ((childIds d pid).flatMap (fun x => if x == refId then [cid, x] else [x])) }

/-- `parent.removeChild(child)` (external substrate): the child is
detached. -/
def removeChildD (doc : DocM) (_pid cid : Nat) : DocM :=
  detachD doc cid

/-- `parent.firstChild`. -/
def firstChildD (doc : DocM) (pid : Nat) : Option Nat :=
  (childIds doc pid).head?

/-- `node.nextSibling`: the entry after the node in its parent's child
list. -/
def nextSiblingD (doc : DocM) (nid : Nat) : Option Nat :=
  match parentNodeD doc nid with
  | none => none
  | some p =>
    match (childIds doc p).dropWhile (fun x => x ≠ nid) with
    | _ :: nx :: _ => some nx
    | _ => none

/-- The `node` argument of the insertion helpers: a markup string (parsed
by the external HTML engine) or an existing node. -/
inductive NodeArg where
  | html (s : String)
  | nd (n : Nat)

/-- Record an `insertAdjacentHTML(position, markup)` call on an element;
the markup parsing itself is the external engine's. -/
def insertAdjacent (el : Elem) (position markup : String) : Elem :=
  { el with inserts := el.inserts ++ [(position, markup)] }

/-- `dom.setup(element, attributes)`: resolve the element, then iterate the
attribute entries in insertion order; `_text` sets the text content,
`_html` the inner markup, anything else becomes an attribute.  Returns the
(mutated) element. -/
def setupOp (doc : DocM) (ref : NodeRef) (attrsL : List (String × String)) :
    Option (DocM × Elem) :=
  (resolveNodeD doc ref).map (fun el =>
    let el2 := attrsL.foldl (fun e nv =>
      if nv.1 = "_text" then { e with textContent := nv.2 }
      else if nv.1 = "_html" then { e with innerHTML := nv.2 }
      else setAttributeE e nv.1 nv.2) el
    (updateDoc doc el2, el2))

/-- `dom.addClass` at document level (class-list capability absent, the
branch this development models). -/
def addClassOp (doc : DocM) (ref : NodeRef) (names : ClassNames) :
    Option (DocM × Elem) :=
  (resolveNodeD doc ref).map (fun el =>
    let el2 := (addClassFb el names).1
    (updateDoc doc el2, el2))

/-- `dom.removeClass` at document level. -/
def removeClassOp (doc : DocM) (ref : NodeRef) (names : ClassNames) :
    Option (DocM × Elem) :=
  (resolveNodeD doc ref).map (fun el =>
    let el2 := (removeClassFb el names).1
    (updateDoc doc el2, el2))

/-- `dom.toggleClass` at document level. -/
def toggleClassOp (doc : DocM) (ref : NodeRef) (names : ClassNames) :
    Option (DocM × Elem) :=
  (resolveNodeD doc ref).map (fun el =>
    let el2 := toggleClassFb el names
    (updateDoc doc el2, el2))

/-- `dom.hasClass` at document level. -/
def hasClassOp (doc : DocM) (ref : NodeRef) (names : ClassNames) : Option Bool :=
  (resolveNodeD doc ref).map (fun el => hasClassFb el names)

/-- `dom.setData` at document level. -/
def setDataOp (doc : DocM) (ref : NodeRef) (key : String) (v : JSPrim) :
    Option (DocM × Elem) :=
  (resolveNodeD doc ref).map (fun el =>
    let el2 := setDataE el key v
    (updateDoc doc el2, el2))

/-- `dom.getData` at document level. -/
def getDataOp (doc : DocM) (ref : NodeRef) (key : String) : Option (Option String) :=
  (resolveNodeD doc ref).map (fun el => getDataE el key)

/-- `dom.append(parent, node)`: markup goes through
`insertAdjacentHTML('beforeend', ...)`, a node through `appendChild`;
returns the parent. -/
def appendOp (doc : DocM) (ref : NodeRef) (arg : NodeArg) : Option (DocM × Elem) :=
  (resolveNodeD doc ref).map (fun p =>
    match arg with
    | .html s =>
      let p2 := insertAdjacent p "beforeend" s
      (updateDoc doc p2, p2)
    | .nd n => (appendChildD doc p.id n, p))

/-- `dom.prepend(parent, node)`: markup via `'afterbegin'`; a node goes
before the first child when one exists, else `appendChild`. -/
def prependOp (doc : DocM) (ref : NodeRef) (arg : NodeArg) : Option (DocM × Elem) :=
  (resolveNodeD doc ref).map (fun p =>
    match arg with
    | .html s =>
      let p2 := insertAdjacent p "afterbegin" s
      (updateDoc doc p2, p2)
    | .nd n =>
      match firstChildD doc p.id with
      | some f => (insertBeforeD doc p.id n f, p)
      | none => (appendChildD doc p.id n, p))

/-- `dom.before(target, node)`: markup via `'beforebegin'`; a node via
`target.parentNode.insertBefore(node, target)` (which throws when the
target has no parent — modelled by `none`).  Returns the target. -/
def beforeOp (doc : DocM) (ref : NodeRef) (arg : NodeArg) : Option (DocM × Elem) :=
  (resolveNodeD doc ref).bind (fun t =>
    match arg with
    | .html s =>
      let t2 := insertAdjacent t "beforebegin" s
      some (updateDoc doc t2, t2)
    | .nd n => (parentNodeD doc t.id).map (fun p => (insertBeforeD doc p n t.id, t)))

/-- `dom.after(target, node)`: markup via `'afterend'`; a node goes before
the next sibling when one exists, else is appended to the parent. -/
def afterOp (doc : DocM) (ref : NodeRef) (arg : NodeArg) : Option (DocM × Elem) :=
  (resolveNodeD doc ref).bind (fun t =>
    match arg with
    | .html s =>
      let t2 := insertAdjacent t "afterend" s
      some (updateDoc doc t2, t2)
    | .nd n =>
      match nextSiblingD doc t.id with
      | some nx => (parentNodeD doc t.id).map (fun p => (insertBeforeD doc p n nx, t))
      | none => (parentNodeD doc t.id).map (fun p => (appendChildD doc p n, t)))

/-- `dom.remove(node)`: detach via `parent.removeChild` only when
`node.parentNode` is non-null, otherwise do nothing; return the node either
way. -/
def removeOpD (doc : DocM) (ref : NodeRef) : Option (DocM × Elem) :=
  (resolveNodeD doc ref).map (fun nd =>
    match parentNodeD doc nd.id with
    | some p => (removeChildD doc p nd.id, nd)
    | none => (doc, nd))

/-- `dom.clear(node)`: `node.textContent = ''`, which also drops the
node's children (they become parentless). -/
def clearOp (doc : DocM) (ref : NodeRef) : Option (DocM × Elem) :=
  (resolveNodeD doc ref).map (fun nd =>
    let nd2 := { nd with textContent := "" }
    let d2 := updateDoc doc nd2
    let d3 : DocM :=
      { d2 with
        childrenOf := setAssoc d2.childrenOf nd.id [],
        parentOf := d2.parentOf.map (fun kv =>
          if (childIds doc nd.id).contains kv.1 then (kv.1, none) else kv) }
    (d3, nd2))

/-- `node.cloneNode(deep)` is the external substrate's copy; the model
returns a structural copy of the record. -/
def cloneNative (el : Elem) (_deep : Bool) : Elem := el

/-- `dom.clone(node, deep)`: resolve, then `cloneNode`. -/
def cloneOp (doc : DocM) (ref : NodeRef) (deep : Bool) : Option Elem :=
  (resolveNodeD doc ref).map (fun nd => cloneNative nd deep)

/-- The ancestor walk of `closest` (also the behaviour of the native
capability): test the node itself first, then each ancestor.  Fuelled to
stay total on arbitrary parent maps. -/
def closestAux (doc : DocM) (s : Sel) : Nat → Elem → Option Elem
  | 0, e => if s e then some e else none
  | fuel + 1, e =>
    if s e then some e
    else
      match parentNodeD doc e.id with
      | none => none
      | some p =>
        match doc.elems.find? (fun x => x.id == p) with
        | none => none
        | some pe => closestAux doc s fuel pe

/-- `dom.closest(element, selector)`. -/
def closestOp (doc : DocM) (ref : NodeRef) (s : Sel) : Option (Option Elem) :=
  (resolveNodeD doc ref).map (fun nd => closestAux doc s (doc.parentOf.length + 1) nd)

/-- `dom.each(parent, callback)`: snapshot the element children and fold
the callback over them (the callback may carry state); returns the parent. -/
def eachOp {σ : Type} (doc : DocM) (ref : NodeRef) (cb : Elem → σ → σ) (init : σ) :
    Option (σ × Elem) :=
  (resolveNodeD doc ref).map (fun p =>
    ((childElems doc p.id).foldl (fun st e => cb e st) init, p))

/-- `dom.on(element, eventName, callback)`: `addEventListener` in
non-capturing mode (the external registry ignores exact duplicates);
returns the element. -/
def onOp (doc : DocM) (ref : NodeRef) (evName : String) (cbId : Nat) :
    Option (DocM × Elem) :=
  (resolveNodeD doc ref).map (fun el =>
    let el2 := { el with
      listeners := if el.listeners.contains (evName, cbId) then el.listeners
                   else el.listeners ++ [(evName, cbId)] }
    (updateDoc doc el2, el2))

/-- `dom.off(element, eventName, callback)`: `removeEventListener`;
returns the element. -/
def offOp (doc : DocM) (ref : NodeRef) (evName : String) (cbId : Nat) :
    Option (DocM × Elem) :=
  (resolveNodeD doc ref).map (fun el =>
    let el2 := { el with listeners := el.listeners.filter (fun lc => lc ≠ (evName, cbId)) }
    (updateDoc doc el2, el2))

/-- `dom.trigger(element, event)`: resolve, then the external
`dispatchEvent` (opaque; passed as a function). -/
def triggerOp (doc : DocM) (ref : NodeRef) (dispatch : Elem → Bool) : Option Bool :=
  (resolveNodeD doc ref).map dispatch

/-- Descendant elements of a node in depth-first (document) order;
fuelled to stay total on arbitrary child maps. -/
def descAux (doc : DocM) : Nat → Nat → List Elem
  | 0, _ => []
  | fuel + 1, nid =>
    (childIds doc nid).flatMap (fun c =>
      match doc.elems.find? (fun e => e.id == c) with
      | some e => e :: descAux doc fuel c
      | none => descAux doc fuel c)

/-- `dom.query(selector, parent)`: a falsy `parent` means the whole
document; otherwise the parent is itself resolved (so it may be a selector
string) and searched. -/
def queryOp (doc : DocM) (s : Sel) (scope : Option NodeRef) : Option (Option Elem) :=
  match scope with
  | none => some (querySelector doc s)
  | some r =>
    (resolveNodeD doc r).map (fun p =>
      (descAux doc (doc.childrenOf.length + 1) p.id).find? s)

/-- `dom.queryAll(selector, parent)`: snapshot list of all matches. -/
def queryAllOp (doc : DocM) (s : Sel) (scope : Option NodeRef) : Option (List Elem) :=
  match scope with
  | none => some (doc.elems.filter s)
  | some r =>
    (resolveNodeD doc r).map (fun p =>
      (descAux doc (doc.childrenOf.length + 1) p.id).filter s)

/-! ## Concrete sample values used for evaluating theorems -/

/-- A concrete document: element 1 is a child of node 0 (next to node 2). -/
def sampleDoc : DocM :=
  { elems := [{ id := 1 }], parentOf := [(1, some 0)], childrenOf := [(0, [1, 2])] }

/-- The element with identity 1. -/
def sampleEl : Elem := { id := 1 }

/-- A selector (matching predicate) that matches the element with
identity 1. -/
def sampleSel : Sel := fun e => e.id == 1

/-! ## Association-list and drain lemmas -/

theorem drainAll_eq (l acc : List Nat) : drainAll acc l = (acc ++ l, []) := by
  induction l generalizing acc with
  | nil => simp [drainAll]
  | cons c rest ih =>
    rw [drainAll, ih]
    simp

theorem lookup_map_modify {β : Type} (m : List (Nat × β)) (c : Nat) (v : β) :
    (m.map (fun kv => if kv.1 == c then (kv.1, v) else kv)).lookup c =
      (m.lookup c).map (fun _ => v) := by
  induction m with
  | nil => rfl
  | cons kv t ih =>
    obtain ⟨k, b⟩ := kv
    rw [List.map_cons]
    cases hkc : k == c with
    | true =>
      have hck : (c == k) = true := by
        rw [beq_iff_eq] at hkc ⊢
        exact hkc.symm
      rw [if_pos rfl]
      simp only [List.lookup_cons, hck]
      rfl
    | false =>
      have hck : (c == k) = false := by
        rw [beq_eq_false_iff_ne] at hkc ⊢
        exact fun e => hkc e.symm
      rw [if_neg (by simp [hkc])]
      simp only [List.lookup_cons, hck]
      exact ih

theorem lookup_map_modify_ne {β : Type} (m : List (Nat × β)) (c q : Nat) (v : β)
    (h : q ≠ c) :
    (m.map (fun kv => if kv.1 == c then (kv.1, v) else kv)).lookup q = m.lookup q := by
  induction m with
  | nil => rfl
  | cons kv t ih =>
    obtain ⟨k, b⟩ := kv
    rw [List.map_cons]
    cases hkc : k == c with
    | true =>
      have hqk : (q == k) = false := by
        rw [beq_iff_eq] at hkc
        subst hkc
        exact beq_eq_false_iff_ne.mpr h
      rw [if_pos rfl]
      simp only [List.lookup_cons, hqk]
      exact ih
    | false =>
      rw [if_neg (by simp [hkc])]
      cases hqk : q == k with
      | true => simp only [List.lookup_cons, hqk]
      | false =>
        simp only [List.lookup_cons, hqk]
        exact ih

theorem lookup_map_snd {β γ : Type} (m : List (Nat × β)) (q : Nat) (f : β → γ) :
    (m.map (fun kv => (kv.1, f kv.2))).lookup q = (m.lookup q).map f := by
  induction m with
  | nil => rfl
  | cons kv t ih =>
    obtain ⟨k, b⟩ := kv
    rw [List.map_cons]
    cases hqk : q == k with
    | true =>
      simp only [List.lookup_cons, hqk]
      rfl
    | false =>
      simp only [List.lookup_cons, hqk]
      exact ih

/-! ## Claim theorems: node classification (C3) -/

/-- C3: `getType` maps tags 1–12 to their canonical lowercase names and
tag 0 or any out-of-range tag to the empty string; `isNode` holds exactly
on non-null objects whose node-kind tag lies in [1, 12]. -/
theorem c3_getType_isNode :
    (getType 0 = "" ∧ getType 1 = "element" ∧ getType 2 = "attribute" ∧
     getType 3 = "text" ∧ getType 4 = "cdata" ∧ getType 5 = "reference" ∧
     getType 6 = "entity" ∧ getType 7 = "instruction" ∧ getType 8 = "comment" ∧
     getType 9 = "document" ∧ getType 10 = "doctype" ∧ getType 11 = "fragment" ∧
     getType 12 = "notation") ∧
    (∀ t : Int, (t < 0 ∨ 12 < t) → getType t = "") ∧
    (∀ v : JSVal, isNode v = true ↔
      ∃ nt : Int, v = JSVal.objV (some nt) ∧ 1 ≤ nt ∧ nt ≤ 12) := by
  refine ⟨by decide, ?_, ?_⟩
  · intro t ht
    unfold getType
    rcases ht with h | h
    · rw [if_neg (by omega)]
    · rw [if_pos (by omega)]
      apply List.getD_eq_default
      have h13 : nodeTypes.length = 13 := by rfl
      rw [h13]
      omega
  · intro v
    cases v with
    | objV nt =>
      cases nt with
      | none => simp [isNode, isObject, nodeTypeOf, jsGE, jsLE]
      | some t =>
        simp only [isNode, isObject, nodeTypeOf, jsGE, jsLE, Bool.and_eq_true,
          decide_eq_true_eq, true_and, JSVal.objV.injEq, Option.some.injEq]
        constructor
        · rintro ⟨h1, h2⟩
          exact ⟨t, rfl, h1, h2⟩
        · rintro ⟨nt, rfl, h1, h2⟩
          exact ⟨h1, h2⟩
    | nullV => simp [isNode, isObject, nodeTypeOf, jsGE, jsLE]
    | undefV => simp [isNode, isObject, nodeTypeOf, jsGE, jsLE]
    | numV n => simp [isNode, isObject, nodeTypeOf, jsGE, jsLE]
    | strV s => simp [isNode, isObject, nodeTypeOf, jsGE, jsLE]
    | boolV b => simp [isNode, isObject, nodeTypeOf, jsGE, jsLE]

/-- Witness for C3 at concrete inputs. -/
theorem c3_getType_isNode_witness :
    getType (-3) = "" ∧ getType 99 = "" ∧ isNode (JSVal.objV (some 5)) = true :=
  ⟨c3_getType_isNode.2.1 (-3) (Or.inl (by decide)),
   c3_getType_isNode.2.1 99 (Or.inr (by decide)),
   (c3_getType_isNode.2.2 (JSVal.objV (some 5))).2 ⟨5, rfl, by decide, by decide⟩⟩

/-! ## Claim theorems: fragment fallback (C2) -/

/-- C2: on the scratch-element fallback path (no `createContextualFragment`
on the cached range, non-empty HTML string), the returned fragment's
children are exactly the parsed nodes in their original sibling order, and
the scratch element is left with no children — whatever it held before. -/
theorem c2_fragment_fallback (ccf parseHTML : String → List Nat)
    (factoryPrev : List Nat) (html : String) (h : html ≠ "") :
    createFragmentM false ccf parseHTML factoryPrev html = (parseHTML html, []) := by
  unfold createFragmentM
  rw [if_neg h]
  simp only [Bool.false_eq_true, if_false]
  exact drainAll_eq _ []

/-- Witness for C2 at a concrete input. -/
theorem c2_fragment_fallback_witness :
    (("<p>a</p><p>b</p>" : String) ≠ "") ∧
    createFragmentM false (fun _ => []) (fun _ => [5, 7]) [3] "<p>a</p><p>b</p>" =
      ([5, 7], []) :=
  ⟨by decide, c2_fragment_fallback (fun _ => []) (fun _ => [5, 7]) [3] _ (by decide)⟩

/-! ## Claim theorems: `matches` probing (C8) -/

/-- C8: `matches` probes the six capability slots in source order, uses the
first available one, and throws the unsupported-operation error exactly
when all six are absent; there is no other fallback. -/
theorem c8_matches_probing (el : ElemMatch) (selector : String) :
    ((matchesOp el selector = Except.error "Method matches() is not supported") ↔
      (el.matchesStd = none ∧ el.matchesSelector = none ∧
       el.webkitMatchesSelector = none ∧ el.mozMatchesSelector = none ∧
       el.msMatchesSelector = none ∧ el.oMatchesSelector = none)) ∧
    (∀ f, el.matchesStd = some f → matchesOp el selector = .ok (f selector)) ∧
    (∀ f, el.matchesStd = none → el.matchesSelector = some f →
      matchesOp el selector = .ok (f selector)) ∧
    (∀ f, el.matchesStd = none → el.matchesSelector = none →
      el.webkitMatchesSelector = some f → matchesOp el selector = .ok (f selector)) ∧
    (∀ f, el.matchesStd = none → el.matchesSelector = none →
      el.webkitMatchesSelector = none → el.mozMatchesSelector = some f →
      matchesOp el selector = .ok (f selector)) ∧
    (∀ f, el.matchesStd = none → el.matchesSelector = none →
      el.webkitMatchesSelector = none → el.mozMatchesSelector = none →
      el.msMatchesSelector = some f → matchesOp el selector = .ok (f selector)) ∧
    (∀ f, el.matchesStd = none → el.matchesSelector = none →
      el.webkitMatchesSelector = none → el.mozMatchesSelector = none →
      el.msMatchesSelector = none → el.oMatchesSelector = some f →
      matchesOp el selector = .ok (f selector)) := by
  obtain ⟨m1, m2, m3, m4, m5, m6⟩ := el
  cases m1 <;> cases m2 <;> cases m3 <;> cases m4 <;> cases m5 <;> cases m6 <;>
    simp [matchesOp, firstCap]

/-- Witness for C8 at a concrete element with only the webkit capability. -/
theorem c8_matches_probing_witness :
    matchesOp { webkitMatchesSelector := some (fun s => s == "div") } "div" =
      .ok true := by
  have h :=
    (c8_matches_probing { webkitMatchesSelector := some (fun s => s == "div") }
      "div").2.2.2.1 (fun s => s == "div") rfl rfl rfl
  simpa using h

/-! ## Claim theorems: `range` (C6) -/

/-- C6 counterexample: the no-argument call returns the fresh
`document.createRange()` range, whose boundary points coincide — it is
collapsed, not uncollapsed as the claim states. -/
theorem c6_range_counterexample :
    collapsedR (rangeOp 0 (fun _ => 7) (fun _ => 3) none 0 none 0) = true := rfl

/-- C6 (amended): with no arguments, `range()` returns an empty, collapsed
range positioned at the document's default position (both boundary points
at offset 0 of the document); with only a start node it selects that whole
node; with both nodes it sets the explicit boundaries. -/
theorem c6_range_amended (docNode : Nat) (parentOf indexIn : Nat → Nat)
    (startOffset endOffset : Nat) :
    (rangeOp docNode parentOf indexIn none startOffset none endOffset =
       createRange docNode ∧
     collapsedR (rangeOp docNode parentOf indexIn none startOffset none endOffset) =
       true ∧
     (rangeOp docNode parentOf indexIn none startOffset none endOffset).startContainer =
       docNode ∧
     (rangeOp docNode parentOf indexIn none startOffset none endOffset).startOffset = 0) ∧
    (∀ s, rangeOp docNode parentOf indexIn (some s) startOffset none endOffset =
      { startContainer := parentOf s, startOffset := indexIn s,
        endContainer := parentOf s, endOffset := indexIn s + 1 }) ∧
    (∀ s e, rangeOp docNode parentOf indexIn (some s) startOffset (some e) endOffset =
      { startContainer := s, startOffset := startOffset,
        endContainer := e, endOffset := endOffset }) := by
  refine ⟨⟨rfl, ?_, rfl, rfl⟩, fun s => rfl, fun s e => rfl⟩
  simp [rangeOp, createRange, collapsedR]

/-! ## Claim theorems: `remove` (C9) -/

/-- C9: `remove(node)` returns the node in all cases; when the node has no
parent nothing at all changes; when it has one, the node is detached (its
parent becomes null, it leaves the parent's child list) and no other
node's parent link is touched. -/
theorem c9_remove (doc : DocM) (el : Elem) :
    (∀ res, removeOpD doc (.node el) = some res → res.2 = el) ∧
    (parentNodeD doc el.id = none → removeOpD doc (.node el) = some (doc, el)) ∧
    (∀ p, parentNodeD doc el.id = some p →
      removeOpD doc (.node el) = some (removeChildD doc p el.id, el) ∧
      parentNodeD (removeChildD doc p el.id) el.id = none ∧
      (∀ m, m ≠ el.id → parentNodeD (removeChildD doc p el.id) m = parentNodeD doc m) ∧
      (∀ q, childIds (removeChildD doc p el.id) q =
        (childIds doc q).filter (fun x => x ≠ el.id))) := by
  refine ⟨?_, ?_, ?_⟩
  · intro res hres
    unfold removeOpD resolveNodeD at hres
    rw [Option.map_some'] at hres
    rcases h : parentNodeD doc el.id with _ | p <;>
      simp only [h, Option.some.injEq] at hres <;> rw [← hres]
  · intro h
    unfold removeOpD resolveNodeD
    rw [Option.map_some']
    simp only [h]
  · intro p hp
    refine ⟨?_, ?_, ?_, ?_⟩
    · unfold removeOpD resolveNodeD
      rw [Option.map_some']
      simp only [hp]
    · unfold parentNodeD removeChildD detachD
      rw [lookup_map_modify]
      cases doc.parentOf.lookup el.id <;> rfl
    · intro m hm
      unfold parentNodeD removeChildD detachD
      rw [lookup_map_modify_ne _ _ _ _ hm]
    · intro q
      unfold childIds removeChildD detachD
      rw [lookup_map_snd]
      cases doc.childrenOf.lookup q <;> rfl

/-- Witness for C9 at a concrete two-node document. -/
theorem c9_remove_witness :
    parentNodeD sampleDoc 1 = some 0 ∧
    removeOpD sampleDoc (.node sampleEl) =
      some (removeChildD sampleDoc 0 1, sampleEl) ∧
    parentNodeD (removeChildD sampleDoc 0 1) 1 = none :=
  ⟨rfl,
   ((c9_remove sampleDoc sampleEl).2.2 0 rfl).1,
   ((c9_remove sampleDoc sampleEl).2.2 0 rfl).2.1⟩

/-! ## Claim theorems: the event factory (C1) -/

/-- C1: `event(kind, name, config)` returns null exactly when the kind is
not one of the seven recognised kinds (and the `default` branch raises
nothing); each recognised kind yields an event object of the corresponding
native constructor; and the keyboard example
`event('keyboard','keydown',(key Enter, ctrlKey true))` has key `'Enter'`
and modifier state `'Control'` alone, with all other fields at their
documented defaults. -/
theorem c1_event (kind name : String) (cfg : EventConfig) :
    (event kind name cfg = none ↔ kind ∉ recognizedKinds) ∧
    ((event "event" name cfg).map EventObj.ctorName = some "Event" ∧
     (event "ui" name cfg).map EventObj.ctorName = some "UIEvent" ∧
     (event "keyboard" name cfg).map EventObj.ctorName = some "KeyboardEvent" ∧
     (event "mouse" name cfg).map EventObj.ctorName = some "MouseEvent" ∧
     (event "wheel" name cfg).map EventObj.ctorName = some "WheelEvent" ∧
     (event "focus" name cfg).map EventObj.ctorName = some "FocusEvent" ∧
     (event "custom" name cfg).map EventObj.ctorName = some "CustomEvent") ∧
    event "keyboard" "keydown" { key := some "Enter", ctrlKey := some true } =
      some { ctorName := "KeyboardEvent", evName := "keydown",
             bubbles := false, cancelable := false,
             args := [EvArg.nul, EvArg.str "Enter", EvArg.num 0,
                      EvArg.str "Control", EvArg.bl false, EvArg.str ""] } := by
  refine ⟨?_, ⟨rfl, rfl, rfl, rfl, rfl, rfl, rfl⟩, by decide⟩
  by_cases h1 : kind = "event"
  · subst h1; simp [event, recognizedKinds]
  by_cases h2 : kind = "ui"
  · subst h2; simp [event, recognizedKinds]
  by_cases h3 : kind = "keyboard"
  · subst h3; simp [event, recognizedKinds]
  by_cases h4 : kind = "mouse"
  · subst h4; simp [event, recognizedKinds]
  by_cases h5 : kind = "wheel"
  · subst h5; simp [event, recognizedKinds]
  by_cases h6 : kind = "focus"
  · subst h6; simp [event, recognizedKinds]
  by_cases h7 : kind = "custom"
  · subst h7; simp [event, recognizedKinds]
  simp [event, recognizedKinds, h1, h2, h3, h4, h5, h6, h7]

/-- Witness for C1: an unknown kind yields null. -/
theorem c1_event_witness : event "bogus" "x" {} = none :=
  (c1_event "bogus" "x" {}).1.mpr (by decide)

/-! ## Claim theorems: data helpers (C5) -/

theorem find?_setAssoc (m : List (String × String)) (k v : String) :
    (setAssoc m k v).find? (fun kv => kv.1 == k) = some (k, v) := by
  unfold setAssoc
  by_cases hany : m.any (fun kv => kv.1 == k)
  · rw [if_pos hany]
    induction m with
    | nil => simp at hany
    | cons kv t ih =>
      obtain ⟨k0, b⟩ := kv
      cases hk0 : k0 == k with
      | true =>
        rw [List.map_cons]
        rw [if_pos (by rw [hk0])]
        simp [List.find?_cons]
      | false =>
        rw [List.map_cons, if_neg (by simp [hk0])]
        have htail : t.any (fun kv => kv.1 == k) = true := by
          rcases List.any_eq_true.mp hany with ⟨x, hx, hpx⟩
          rcases List.mem_cons.mp hx with rfl | hxt
          · exact absurd hpx (by simp [hk0])
          · exact List.any_eq_true.mpr ⟨x, hxt, hpx⟩
        rw [List.find?_cons_of_neg _ (by simp [hk0])]
        exact ih htail
  · rw [if_neg hany]
    have hnone : m.find? (fun kv => kv.1 == k) = none := by
      apply List.find?_eq_none.mpr
      intro x hx
      intro hpx
      exact hany (List.any_eq_true.mpr ⟨x, hx, hpx⟩)
    rw [List.find?_append, hnone]
    simp [List.find?_cons]

/-- C5: `setData` always stores the stringified value (`true` becomes the
string `"true"`), `getData` after `setData` with the same key reads it back
on either capability path; without the native dataset both helpers go
through the kebab-cased `data-*` attribute (`fooBar` maps to
`data-foo-bar`). -/
theorem c5_data (el : Elem) (key : String) (v : JSPrim) :
    getDataE (setDataE el key v) key = some (jsToString v) ∧
    jsToString (.boolP true) = "true" ∧
    toDataKey "fooBar" = "data-foo-bar" ∧
    (el.dataset = none →
      setDataE el key v = setAttributeE el (toDataKey key) (jsToString v) ∧
      getDataE el key = getAttributeE el (toDataKey key)) := by
  refine ⟨?_, rfl, by decide, ?_⟩
  · cases hd : el.dataset with
    | some ds =>
      simp only [setDataE, getDataE, hd]
      rw [find?_setAssoc]
      rfl
    | none =>
      simp only [setDataE, getDataE, hd, setAttributeE, getAttributeE]
      rw [find?_setAssoc]
      rfl
  · intro h
    constructor
    · simp only [setDataE, h]
    · simp only [getDataE, h]

/-- Witness for C5 at a concrete element without the dataset capability. -/
theorem c5_data_witness :
    getDataE (setDataE sampleEl "fooBar" (JSPrim.boolP true)) "fooBar" = some "true" ∧
    setDataE sampleEl "fooBar" (JSPrim.boolP true) =
      setAttributeE sampleEl (toDataKey "fooBar") (jsToString (JSPrim.boolP true)) :=
  ⟨(c5_data sampleEl "fooBar" (JSPrim.boolP true)).1,
   ((c5_data sampleEl "fooBar" (JSPrim.boolP true)).2.2.2 rfl).1⟩

/-! ## String lemmas for the class-attribute fallback -/

theorem splitChar_eq_splitOn (s : Str) : splitChar s = s.splitOn ' ' := by
  induction s with
  | nil => rfl
  | cons c t ih =>
    unfold splitChar
    rw [ih]
    rcases h : t.splitOn ' ' with _ | ⟨hd, tl⟩
    · exact absurd h (List.splitOnP_ne_nil _ t)
    · simp only [List.splitOn] at h ⊢
      rw [List.splitOnP_cons, h]
      cases hc : c == ' ' with
      | true => simp
      | false => simp [List.modifyHead_cons]

theorem joinSp_cons_cons (x y : Str) (ts : List Str) :
    joinSp (x :: y :: ts) = x ++ ' ' :: joinSp (y :: ts) := by
  unfold joinSp
  simp [List.intercalate, List.intersperse_cons_cons]

theorem joinSp_singleton (x : Str) : joinSp [x] = x := by
  unfold joinSp
  simp [List.intercalate]

theorem wfName_spec (n : Str) (h : wfName n = true) :
    n ≠ [] ∧ ∀ c ∈ n, wsChar c = false := by
  unfold wfName at h
  rw [Bool.and_eq_true] at h
  obtain ⟨h1, h2⟩ := h
  constructor
  · intro he
    subst he
    simp at h1
  · intro c hc
    have := List.all_eq_true.mp h2 c hc
    simpa using this

theorem wfName_no_space (n : Str) (h : wfName n = true) : ' ' ∉ n := by
  intro hmem
  have := (wfName_spec n h).2 ' ' hmem
  simp [wsChar] at this

theorem head?_joinSp (x : Str) (t : List Str) (hx : x ≠ []) :
    (joinSp (x :: t)).head? = x.head? := by
  obtain ⟨c, x', rfl⟩ : ∃ c x', x = c :: x' := by
    cases x with
    | nil => exact absurd rfl hx
    | cons c x' => exact ⟨c, x', rfl⟩
  cases t with
  | nil => rw [joinSp_singleton]
  | cons y ts =>
    rw [joinSp_cons_cons]
    rfl

theorem joinSp_ne_nil (x : Str) (t : List Str) (hx : x ≠ []) :
    joinSp (x :: t) ≠ [] := by
  intro h
  have hh := head?_joinSp x t hx
  rw [h] at hh
  cases x with
  | nil => exact hx rfl
  | cons c x' => simp at hh

theorem getLast?_joinSp (l : List Str) (h : l ≠ []) (hne : ∀ x ∈ l, x ≠ []) :
    ∃ b, (joinSp l).getLast? = some b ∧ ∃ x ∈ l, b ∈ x := by
  induction l with
  | nil => exact absurd rfl h
  | cons x t ih =>
    cases t with
    | nil =>
      have hx : x ≠ [] := hne x (by simp)
      refine ⟨x.getLast hx, ?_, x, by simp, List.getLast_mem hx⟩
      rw [joinSp_singleton]
      exact List.getLast?_eq_getLast x hx
    | cons y ts =>
      obtain ⟨b, hb, xx, hxx, hbx⟩ :=
        ih (by simp) (fun z hz => hne z (List.mem_cons_of_mem x hz))
      refine ⟨b, ?_, xx, List.mem_cons_of_mem x hxx, hbx⟩
      rw [joinSp_cons_cons]
      have hj : joinSp (y :: ts) ≠ [] := joinSp_ne_nil y ts (hne y (by simp))
      have : (' ' :: joinSp (y :: ts) : Str) = [' '] ++ joinSp (y :: ts) := rfl
      rw [this, ← List.append_assoc,
        List.getLast?_append_of_ne_nil _ hj]
      exact hb

theorem dropWhile_eq_self_of_head {p : Char → Bool} (l : Str)
    (h : ∀ a, l.head? = some a → p a = false) : l.dropWhile p = l := by
  cases l with
  | nil => rfl
  | cons a t =>
    rw [List.dropWhile_cons, h a rfl]
    simp

theorem jsTrim_joinSp_wf (c : List Str) (hc : c ≠ []) (hwf : ∀ x ∈ c, wfName x = true) :
    jsTrim (joinSp c) = joinSp c := by
  obtain ⟨x, t, rfl⟩ : ∃ x t, c = x :: t := by
    cases c with
    | nil => exact absurd rfl hc
    | cons x t => exact ⟨x, t, rfl⟩
  have hx : x ≠ [] := (wfName_spec x (hwf x (by simp))).1
  have h1 : (joinSp (x :: t)).dropWhile wsChar = joinSp (x :: t) := by
    apply dropWhile_eq_self_of_head
    intro a ha
    rw [head?_joinSp x t hx] at ha
    have hax : a ∈ x := by
      cases x with
      | nil => simp at ha
      | cons c0 x' =>
        simp only [List.head?] at ha
        injection ha with ha
        subst ha
        simp
    exact (wfName_spec x (hwf x (by simp))).2 a hax
  have h2 : ((joinSp (x :: t)).reverse).dropWhile wsChar = (joinSp (x :: t)).reverse := by
    apply dropWhile_eq_self_of_head
    intro a ha
    rw [List.head?_reverse] at ha
    obtain ⟨b, hb, xx, hxxmem, hbmem⟩ :=
      getLast?_joinSp (x :: t) (by simp)
        (fun z hz => (wfName_spec z (hwf z hz)).1)
    rw [hb] at ha
    injection ha with ha
    rw [← ha]
    exact (wfName_spec xx (hwf xx hxxmem)).2 b hbmem
  unfold jsTrim
  rw [h1, h2, List.reverse_reverse]

theorem splitRuns_joinSp_wf (c : List Str) (hc : c ≠ [])
    (hwf : ∀ x ∈ c, wfName x = true) : splitSpaceRuns (joinSp c) = c := by
  obtain ⟨x, t, rfl⟩ : ∃ x t, c = x :: t := by
    cases c with
    | nil => exact absurd rfl hc
    | cons x t => exact ⟨x, t, rfl⟩
  have hx : x ≠ [] := (wfName_spec x (hwf x (by simp))).1
  unfold splitSpaceRuns
  rw [if_neg (joinSp_ne_nil x t hx)]
  rw [splitChar_eq_splitOn]
  unfold joinSp
  rw [List.splitOn_intercalate _ ' '
    (fun l hl => wfName_no_space l (hwf l hl)) (by simp)]
  exact List.filter_eq_self.mpr
    (fun a ha => by simpa using (wfName_spec a (hwf a ha)).1)

theorem tokens_joinSp_wf (c : List Str) (hc : c ≠ [])
    (hwf : ∀ x ∈ c, wfName x = true) : getClassTokens (joinSp c) = c := by
  unfold getClassTokens
  rw [jsTrim_joinSp_wf c hc hwf]
  exact splitRuns_joinSp_wf c hc hwf

theorem jsTrim_space_cons (s : Str) : jsTrim (' ' :: s) = jsTrim s := by
  unfold jsTrim
  rw [List.dropWhile_cons]
  simp [wsChar]

theorem tokens_joinSp_phantom (d : List Str) (hwf : ∀ x ∈ d, wfName x = true) :
    getClassTokens (joinSp ([] :: d)) = if d = [] then [[]] else d := by
  cases d with
  | nil => rfl
  | cons y ts =>
    rw [joinSp_cons_cons]
    simp only [List.nil_append]
    rw [if_neg (by simp)]
    unfold getClassTokens
    rw [jsTrim_space_cons, jsTrim_joinSp_wf _ (by simp) hwf]
    exact splitRuns_joinSp_wf _ (by simp) hwf

/-! ## Loop lemmas for the class-attribute fallback -/

theorem addAux_shape (ns : List Str) : ∀ (cur : List Str) (b : Bool),
    ∃ t, (List.foldl (fun acc n => if n ∈ acc.1 then acc else (acc.1 ++ [n], true))
      (cur, b) ns).1 = cur ++ t ∧ ∀ x ∈ t, x ∈ ns := by
  induction ns with
  | nil => exact fun cur b => ⟨[], by simp, by simp⟩
  | cons n ns ih =>
    intro cur b
    rw [List.foldl_cons]
    dsimp only
    by_cases hn : n ∈ cur
    · rw [if_pos hn]
      obtain ⟨t, ht, hm⟩ := ih cur b
      exact ⟨t, ht, fun x hx => List.mem_cons_of_mem n (hm x hx)⟩
    · rw [if_neg hn]
      obtain ⟨t, ht, hm⟩ := ih (cur ++ [n]) true
      refine ⟨n :: t, ?_, ?_⟩
      · rw [ht, List.append_assoc]
        rfl
      · intro x hx
        rcases List.mem_cons.mp hx with rfl | hx
        · exact List.mem_cons_self x ns
        · exact List.mem_cons_of_mem n (hm x hx)

theorem addAux_mem_names (ns : List Str) : ∀ (cur : List Str) (b : Bool),
    ∀ n ∈ ns, n ∈ (List.foldl (fun acc n => if n ∈ acc.1 then acc else (acc.1 ++ [n], true))
      (cur, b) ns).1 := by
  induction ns with
  | nil => intro cur b n hn; simp at hn
  | cons n ns ih =>
    intro cur b m hm
    rw [List.foldl_cons]
    dsimp only
    by_cases hn : n ∈ cur
    · rw [if_pos hn]
      rcases List.mem_cons.mp hm with rfl | hm
      · obtain ⟨t, ht, _⟩ := addAux_shape ns cur b
        rw [ht]
        exact List.mem_append_left t hn
      · exact ih cur b m hm
    · rw [if_neg hn]
      rcases List.mem_cons.mp hm with rfl | hm
      · obtain ⟨t, ht, _⟩ := addAux_shape ns (cur ++ [m]) true
        rw [ht]
        simp
      · exact ih (cur ++ [n]) true m hm

theorem addAux_all_mem (ns : List Str) : ∀ (cur : List Str) (b : Bool),
    (∀ n ∈ ns, n ∈ cur) →
    List.foldl (fun acc n => if n ∈ acc.1 then acc else (acc.1 ++ [n], true))
      (cur, b) ns = (cur, b) := by
  induction ns with
  | nil => intro cur b _; rfl
  | cons n ns ih =>
    intro cur b h
    rw [List.foldl_cons]
    dsimp only
    rw [if_pos (h n (List.mem_cons_self n ns))]
    exact ih cur b (fun m hm => h m (List.mem_cons_of_mem n hm))

theorem addAux_true (ns : List Str) : ∀ (cur : List Str),
    (List.foldl (fun acc n => if n ∈ acc.1 then acc else (acc.1 ++ [n], true))
      (cur, true) ns).2 = true := by
  induction ns with
  | nil => intro cur; rfl
  | cons n ns ih =>
    intro cur
    rw [List.foldl_cons]
    dsimp only
    by_cases hn : n ∈ cur
    · rw [if_pos hn]; exact ih cur
    · rw [if_neg hn]; exact ih (cur ++ [n])

theorem addAux_false_all (ns : List Str) : ∀ (cur : List Str),
    (List.foldl (fun acc n => if n ∈ acc.1 then acc else (acc.1 ++ [n], true))
      (cur, false) ns).2 = false → ∀ n ∈ ns, n ∈ cur := by
  induction ns with
  | nil => intro cur _ n hn; simp at hn
  | cons n ns ih =>
    intro cur h m hm
    rw [List.foldl_cons] at h
    dsimp only at h
    by_cases hn : n ∈ cur
    · rw [if_pos hn] at h
      rcases List.mem_cons.mp hm with rfl | hm
      · exact hn
      · exact ih cur h m hm
    · rw [if_neg hn] at h
      rw [addAux_true ns (cur ++ [n])] at h
      exact absurd h (by simp)

theorem remAux_mem (ns : List Str) : ∀ (cur : List Str) (b : Bool), cur.Nodup →
    ∀ x, x ∈ (List.foldl (fun acc n => if n ∈ acc.1 then (acc.1.erase n, true) else acc)
      (cur, b) ns).1 ↔ (x ∈ cur ∧ x ∉ ns) := by
  induction ns with
  | nil => intro cur b _ x; simp
  | cons n ns ih =>
    intro cur b hnd x
    rw [List.foldl_cons]
    dsimp only
    by_cases hn : n ∈ cur
    · rw [if_pos hn]
      rw [ih (cur.erase n) true (hnd.erase n) x]
      rw [hnd.mem_erase_iff]
      have hsplit : x ∉ n :: ns ↔ x ≠ n ∧ x ∉ ns := by simp
      rw [hsplit]
      tauto
    · rw [if_neg hn]
      rw [ih cur b hnd x]
      have hxne : x ∈ cur → x ≠ n := fun hxc he => hn (he ▸ hxc)
      have hsplit : x ∉ n :: ns ↔ x ≠ n ∧ x ∉ ns := by simp
      rw [hsplit]
      tauto

theorem remAux_nodup (ns : List Str) : ∀ (cur : List Str) (b : Bool), cur.Nodup →
    (List.foldl (fun acc n => if n ∈ acc.1 then (acc.1.erase n, true) else acc)
      (cur, b) ns).1.Nodup := by
  induction ns with
  | nil => intro cur b h; exact h
  | cons n ns ih =>
    intro cur b hnd
    rw [List.foldl_cons]
    dsimp only
    by_cases hn : n ∈ cur
    · rw [if_pos hn]; exact ih (cur.erase n) true (hnd.erase n)
    · rw [if_neg hn]; exact ih cur b hnd

theorem remAux_subset (ns : List Str) : ∀ (cur : List Str) (b : Bool) (x : Str),
    x ∈ (List.foldl (fun acc n => if n ∈ acc.1 then (acc.1.erase n, true) else acc)
      (cur, b) ns).1 → x ∈ cur := by
  induction ns with
  | nil => intro cur b x h; exact h
  | cons n ns ih =>
    intro cur b x h
    rw [List.foldl_cons] at h
    dsimp only at h
    by_cases hn : n ∈ cur
    · rw [if_pos hn] at h
      exact List.mem_of_mem_erase (ih (cur.erase n) true x h)
    · rw [if_neg hn] at h
      exact ih cur b x h

theorem remAux_none (ns : List Str) : ∀ (cur : List Str) (b : Bool),
    (∀ n ∈ ns, n ∉ cur) →
    List.foldl (fun acc n => if n ∈ acc.1 then (acc.1.erase n, true) else acc)
      (cur, b) ns = (cur, b) := by
  induction ns with
  | nil => intro cur b _; rfl
  | cons n ns ih =>
    intro cur b h
    rw [List.foldl_cons]
    dsimp only
    rw [if_neg (h n (List.mem_cons_self n ns))]
    exact ih cur b (fun m hm => h m (List.mem_cons_of_mem n hm))

theorem remAux_true (ns : List Str) : ∀ (cur : List Str),
    (List.foldl (fun acc n => if n ∈ acc.1 then (acc.1.erase n, true) else acc)
      (cur, true) ns).2 = true := by
  induction ns with
  | nil => intro cur; rfl
  | cons n ns ih =>
    intro cur
    rw [List.foldl_cons]
    dsimp only
    by_cases hn : n ∈ cur
    · rw [if_pos hn]; exact ih (cur.erase n)
    · rw [if_neg hn]; exact ih cur

theorem remAux_false_all (ns : List Str) : ∀ (cur : List Str),
    (List.foldl (fun acc n => if n ∈ acc.1 then (acc.1.erase n, true) else acc)
      (cur, false) ns).2 = false → ∀ n ∈ ns, n ∉ cur := by
  induction ns with
  | nil => intro cur _ n hn; simp at hn
  | cons n ns ih =>
    intro cur h m hm
    rw [List.foldl_cons] at h
    dsimp only at h
    by_cases hn : n ∈ cur
    · rw [if_pos hn] at h
      rw [remAux_true ns (cur.erase n)] at h
      exact absurd h (by simp)
    · rw [if_neg hn] at h
      rcases List.mem_cons.mp hm with rfl | hm
      · exact hn
      · exact ih cur h m hm

theorem togStep_mem_self (cur : List Str) (n : Str) (hnd : cur.Nodup) :
    n ∈ togStep cur n ↔ n ∉ cur := by
  unfold togStep
  by_cases hn : n ∈ cur
  · rw [if_pos hn, hnd.mem_erase_iff]
    simp [hn]
  · rw [if_neg hn]
    simp [hn]

theorem togStep_mem_ne (cur : List Str) (n x : Str) (hx : x ≠ n) :
    x ∈ togStep cur n ↔ x ∈ cur := by
  unfold togStep
  by_cases hn : n ∈ cur
  · rw [if_pos hn]
    exact List.mem_erase_of_ne hx
  · rw [if_neg hn]
    simp [hx]

theorem togStep_nodup (cur : List Str) (n : Str) (hnd : cur.Nodup) :
    (togStep cur n).Nodup := by
  unfold togStep
  by_cases hn : n ∈ cur
  · rw [if_pos hn]; exact hnd.erase n
  · rw [if_neg hn]
    simp [List.nodup_append, hnd, hn]

theorem togGo_nodup (ns : List Str) : ∀ (cur : List Str), cur.Nodup →
    (togGo cur ns).Nodup := by
  induction ns with
  | nil => intro cur h; exact h
  | cons n ns ih =>
    intro cur hnd
    unfold togGo at ih ⊢
    rw [List.foldl_cons]
    exact ih (togStep cur n) (togStep_nodup cur n hnd)

theorem togGo_subset (ns : List Str) : ∀ (cur : List Str) (x : Str),
    x ∈ togGo cur ns → x ∈ cur ∨ x ∈ ns := by
  induction ns with
  | nil => intro cur x h; exact Or.inl h
  | cons n ns ih =>
    intro cur x h
    unfold togGo at ih h
    rw [List.foldl_cons] at h
    rcases ih (togStep cur n) x h with hc | hns
    · unfold togStep at hc
      by_cases hn : n ∈ cur
      · rw [if_pos hn] at hc
        exact Or.inl (List.mem_of_mem_erase hc)
      · rw [if_neg hn] at hc
        rcases List.mem_append.mp hc with hc | hc
        · exact Or.inl hc
        · simp only [List.mem_singleton] at hc
          exact Or.inr (by simp [hc])
    · exact Or.inr (List.mem_cons_of_mem n hns)

theorem togGo_mem (ns : List Str) : ∀ (cur : List Str), cur.Nodup → ∀ x,
    (x ∈ togGo cur ns ↔ (x ∈ cur ↔ ns.count x % 2 = 0)) := by
  induction ns with
  | nil =>
    intro cur _ x
    simp [togGo]
  | cons n ns ih =>
    intro cur hnd x
    unfold togGo at ih ⊢
    rw [List.foldl_cons]
    rw [ih (togStep cur n) (togStep_nodup cur n hnd) x]
    by_cases hx : x = n
    · subst hx
      rw [togStep_mem_self cur x hnd]
      have hcount : (x :: ns).count x = ns.count x + 1 := by
        simp [List.count_cons]
      rw [hcount]
      by_cases hc : ns.count x % 2 = 0 <;> by_cases hm : x ∈ cur <;>
        simp [hc, hm] <;> omega
    · rw [togStep_mem_ne cur n x hx]
      have hcount : (n :: ns).count x = ns.count x := by
        simp [List.count_cons, hx]
      rw [hcount]

theorem togGo_phantom (ns : List Str) : ∀ (r : List Str),
    (∀ n ∈ ns, n ≠ ([] : Str)) →
    togGo ([] :: r) ns = [] :: togGo r ns := by
  induction ns with
  | nil => intro r _; rfl
  | cons n ns ih =>
    intro r h
    unfold togGo at ih ⊢
    rw [List.foldl_cons, List.foldl_cons]
    have hstep : togStep ([] :: r) n = [] :: togStep r n := by
      have hne : n ≠ ([] : Str) := h n (List.mem_cons_self n ns)
      unfold togStep
      have hmem : n ∈ ([] :: r : List Str) ↔ n ∈ r := by
        simp [List.mem_cons, hne]
      by_cases hn : n ∈ r
      · rw [if_pos (hmem.mpr hn), if_pos hn]
        rw [List.erase_cons]
        rw [if_neg (by simpa using (Ne.symm hne))]
      · rw [if_neg (fun hc => hn (hmem.mp hc)), if_neg hn]
        rfl
    rw [hstep]
    exact ih (togStep r n) (fun m hm => h m (List.mem_cons_of_mem n hm))

/-! ## Element-level lemmas for the class helpers -/

theorem addGo_eq (cur ns : List Str) :
    addGo cur ns =
      List.foldl (fun acc n => if n ∈ acc.1 then acc else (acc.1 ++ [n], true))
        (cur, false) ns := rfl

theorem removeGo_eq (cur ns : List Str) :
    removeGo cur ns =
      List.foldl (fun acc n => if n ∈ acc.1 then (acc.1.erase n, true) else acc)
        (cur, false) ns := rfl

theorem hasClass_true_iff (el : Elem) (ns : List Str) :
    hasClassFb el (.listI ns) = true ↔ ∀ n ∈ ns, n ∈ getClassTokens el.className := by
  simp [hasClassFb, resolveNames, List.all_eq_true]

theorem hasClass_false_of_missing (el : Elem) (ns : List Str)
    (h : ∃ n ∈ ns, n ∉ getClassTokens el.className) :
    hasClassFb el (.listI ns) = false := by
  rcases h with ⟨n, hn, hmem⟩
  rw [Bool.eq_false_iff]
  intro hc
  exact hmem ((hasClass_true_iff el ns).mp hc n hn)

theorem toggleClassFb_className (el : Elem) (ns : List Str) :
    (toggleClassFb el (.listI ns)).className =
      joinSp (togGo (getClassTokens el.className) ns) := rfl

theorem addClassFb_flag_true (el : Elem) (ns : List Str)
    (h : (addGo (getClassTokens el.className) ns).2 = true) :
    (addClassFb el (.listI ns)).1 =
      { el with className := joinSp (addGo (getClassTokens el.className) ns).1 } := by
  simp only [addClassFb, resolveNames, h, if_true]

theorem addClassFb_flag_false (el : Elem) (ns : List Str)
    (h : (addGo (getClassTokens el.className) ns).2 = false) :
    (addClassFb el (.listI ns)).1 = el := by
  simp only [addClassFb, resolveNames, h, Bool.false_eq_true, if_false]

theorem removeClassFb_flag_true (el : Elem) (ns : List Str)
    (h : (removeGo (getClassTokens el.className) ns).2 = true) :
    (removeClassFb el (.listI ns)).1 =
      { el with className := joinSp (removeGo (getClassTokens el.className) ns).1 } := by
  simp only [removeClassFb, resolveNames, h, if_true]

theorem removeClassFb_flag_false (el : Elem) (ns : List Str)
    (h : (removeGo (getClassTokens el.className) ns).2 = false) :
    (removeClassFb el (.listI ns)).1 = el := by
  simp only [removeClassFb, resolveNames, h, Bool.false_eq_true, if_false]

/-- Toggling preserves the good-token invariant and flips each well-formed
name's membership according to the parity of its occurrences in the name
list. -/
theorem toggle_memb (el : Elem) (ns : List Str) (hel : tokensOK el)
    (hns : ∀ n ∈ ns, wfName n = true) :
    tokensOK (toggleClassFb el (.listI ns)) ∧
    ∀ m, wfName m = true →
      (m ∈ getClassTokens (toggleClassFb el (.listI ns)).className ↔
        ((m ∈ getClassTokens el.className) ↔ ns.count m % 2 = 0)) := by
  have hwsne : ∀ n ∈ ns, n ≠ ([] : Str) := fun n hn => (wfName_spec n (hns n hn)).1
  rcases hel with hph | ⟨hnd, hwf⟩
  · -- phantom: the class attribute holds the single empty token
    have hcur : getClassTokens el.className = [[]] := hph
    have hstep : togGo (getClassTokens el.className) ns = [] :: togGo [] ns := by
      rw [hcur]
      exact togGo_phantom ns [] hwsne
    have hund : (togGo [] ns).Nodup := togGo_nodup ns [] List.nodup_nil
    have huwf : ∀ x ∈ togGo [] ns, wfName x = true := by
      intro x hx
      rcases togGo_subset ns [] x hx with hc | hc
      · simp at hc
      · exact hns x hc
    have htox : getClassTokens (toggleClassFb el (.listI ns)).className =
        if togGo [] ns = [] then [[]] else togGo [] ns := by
      rw [toggleClassFb_className, hstep]
      exact tokens_joinSp_phantom _ huwf
    constructor
    · unfold tokensOK
      rw [htox]
      by_cases hu : togGo [] ns = []
      · rw [if_pos hu]
        exact Or.inl rfl
      · rw [if_neg hu]
        exact Or.inr ⟨hund, huwf⟩
    · intro m hm
      have hmne : m ≠ ([] : Str) := (wfName_spec m hm).1
      have hmcur : (m ∈ getClassTokens el.className) = False := by
        rw [hcur]
        simp [hmne]
      have hmode := togGo_mem ns [] List.nodup_nil m
      rw [htox, hmcur]
      by_cases hu : togGo [] ns = []
      · rw [if_pos hu]
        rw [hu] at hmode
        simp only [List.not_mem_nil, false_iff] at hmode
        simp [hmne]
        exact not_not.mp hmode
      · rw [if_neg hu]
        rw [hmode]
        simp
  · -- duplicate-free well-formed tokens
    have hc1nd : (togGo (getClassTokens el.className) ns).Nodup :=
      togGo_nodup ns _ hnd
    have hc1wf : ∀ x ∈ togGo (getClassTokens el.className) ns, wfName x = true := by
      intro x hx
      rcases togGo_subset ns _ x hx with hc | hc
      · exact hwf x hc
      · exact hns x hc
    have hmode := togGo_mem ns (getClassTokens el.className) hnd
    by_cases hc1 : togGo (getClassTokens el.className) ns = []
    · have htox : getClassTokens (toggleClassFb el (.listI ns)).className = [[]] := by
        rw [toggleClassFb_className, hc1]
        rfl
      constructor
      · exact Or.inl htox
      · intro m hm
        have hmne : m ≠ ([] : Str) := (wfName_spec m hm).1
        rw [htox]
        have := hmode m
        rw [hc1] at this
        simp only [List.not_mem_nil, false_iff] at this
        simp [hmne]
        exact this
    · have htox : getClassTokens (toggleClassFb el (.listI ns)).className =
          togGo (getClassTokens el.className) ns := by
        rw [toggleClassFb_className]
        exact tokens_joinSp_wf _ hc1 hc1wf
      constructor
      · exact Or.inr (by rw [htox]; exact ⟨hc1nd, hc1wf⟩)
      · intro m hm
        rw [htox]
        exact hmode m

/-! ## Claim theorems: class-helper algebra (C4) -/

/-- C4 counterexample: on an element whose class attribute is `"a a"` (a
duplicated token) and no native class list, `removeClass` with `['a']`
splices out only the first occurrence, so `hasClass(['a'])` afterwards is
still true — the claim says it is always false. -/
theorem c4_class_counterexample :
    hasClassFb ((removeClassFb sampleElDup (.listI [['a']])).1) (.listI [['a']]) =
      true := by decide

/-- C4 (amended): on the class-attribute fallback path, for an element
whose class tokens are duplicate-free well-formed names (or blank) and a
non-empty list of well-formed names: `addClass` then `hasClass` with the
same names is true; `removeClass` then `hasClass` is false; applying
`toggleClass` twice with the same names restores every well-formed name's
membership; and `hasClass` requires all listed names (logical AND). -/
theorem c4_class_amended (el : Elem) (ns : List Str) (hel : tokensOK el)
    (hne : ns ≠ []) (hns : ∀ n ∈ ns, wfName n = true) :
    hasClassFb ((addClassFb el (.listI ns)).1) (.listI ns) = true ∧
    hasClassFb ((removeClassFb el (.listI ns)).1) (.listI ns) = false ∧
    (∀ m, wfName m = true →
      hasClassFb (toggleClassFb (toggleClassFb el (.listI ns)) (.listI ns))
          (.listI [m]) =
        hasClassFb el (.listI [m])) ∧
    (hasClassFb el (.listI ns) = true ↔
      ∀ n ∈ ns, hasClassFb el (.listI [n]) = true) := by
  refine ⟨?_, ?_, ?_, ?_⟩
  · -- addClass then hasClass
    cases hflag : (addGo (getClassTokens el.className) ns).2 with
    | false =>
      rw [addClassFb_flag_false el ns hflag]
      rw [hasClass_true_iff]
      rw [addGo_eq] at hflag
      exact addAux_false_all ns _ hflag
    | true =>
      rw [addClassFb_flag_true el ns hflag]
      obtain ⟨t, ht, htm⟩ := addAux_shape ns (getClassTokens el.className) false
      rw [← addGo_eq] at ht
      have hmemall : ∀ n ∈ ns, n ∈ (addGo (getClassTokens el.className) ns).1 := by
        intro n hn
        rw [addGo_eq]
        exact addAux_mem_names ns _ false n hn
      have hn0 : ∃ n ∈ ns, n ∉ getClassTokens el.className := by
        by_contra hall
        push_neg at hall
        have := addAux_all_mem ns (getClassTokens el.className) false hall
        rw [← addGo_eq] at this
        rw [this] at hflag
        simp at hflag
      obtain ⟨n0, hn0ns, hn0cur⟩ := hn0
      rcases hel with hph | ⟨hnd, hwf⟩
      · -- phantom start
        have hn0t : n0 ∈ t := by
          have hmm := hmemall n0 hn0ns
          rw [ht] at hmm
          rcases List.mem_append.mp hmm with h | h
          · exact absurd h hn0cur
          · exact h
        have htwf : ∀ x ∈ t, wfName x = true := fun x hx => hns x (htm x hx)
        have hphsh : (addGo (getClassTokens el.className) ns).1 = [] :: t := by
          rw [ht, hph]
          rfl
        rw [hasClass_true_iff]
        intro n hn
        show n ∈ getClassTokens ({ el with
          className := joinSp (addGo (getClassTokens el.className) ns).1 } : Elem).className
        have : getClassTokens (joinSp ([] :: t)) = if t = [] then [[]] else t :=
          tokens_joinSp_phantom t htwf
        rw [if_neg (by intro h0; rw [h0] at hn0t; simp at hn0t)] at this
        simp only [hphsh]
        rw [this]
        have := hmemall n hn
        rw [hphsh] at this
        rcases List.mem_cons.mp this with h | h
        · exact absurd h.symm (by simpa using (wfName_spec n (hns n hn)).1)
        · exact h
      · -- well-formed start
        have hfwf : ∀ x ∈ (addGo (getClassTokens el.className) ns).1, wfName x = true := by
          intro x hx
          rw [ht] at hx
          rcases List.mem_append.mp hx with h | h
          · exact hwf x h
          · exact hns x (htm x h)
        have hfne : (addGo (getClassTokens el.className) ns).1 ≠ [] := by
          intro h0
          have := hmemall n0 hn0ns
          rw [h0] at this
          simp at this
        rw [hasClass_true_iff]
        intro n hn
        show n ∈ getClassTokens ({ el with
          className := joinSp (addGo (getClassTokens el.className) ns).1 } : Elem).className
        simp only
        rw [tokens_joinSp_wf _ hfne hfwf]
        exact hmemall n hn
  · -- removeClass then hasClass
    obtain ⟨n0, hn0⟩ : ∃ n0, n0 ∈ ns := by
      cases ns with
      | nil => exact absurd rfl hne
      | cons a l => exact ⟨a, by simp⟩
    cases hflag : (removeGo (getClassTokens el.className) ns).2 with
    | false =>
      rw [removeClassFb_flag_false el ns hflag]
      rw [removeGo_eq] at hflag
      have := remAux_false_all ns _ hflag
      exact hasClass_false_of_missing el ns ⟨n0, hn0, this n0 hn0⟩
    | true =>
      rcases hel with hph | ⟨hnd, hwf⟩
      · exfalso
        have hnone : ∀ n ∈ ns, n ∉ getClassTokens el.className := by
          intro n hn
          rw [hph]
          simpa using (wfName_spec n (hns n hn)).1
        have := remAux_none ns (getClassTokens el.className) false hnone
        rw [← removeGo_eq] at this
        rw [this] at hflag
        simp at hflag
      · rw [removeClassFb_flag_true el ns hflag]
        have hfmem := remAux_mem ns (getClassTokens el.className) false hnd
        have hfwf : ∀ x ∈ (removeGo (getClassTokens el.className) ns).1,
            wfName x = true := by
          intro x hx
          rw [removeGo_eq] at hx
          exact hwf x (remAux_subset ns _ false x hx)
        apply hasClass_false_of_missing
        refine ⟨n0, hn0, ?_⟩
        show n0 ∉ getClassTokens ({ el with
          className := joinSp (removeGo (getClassTokens el.className) ns).1 } : Elem).className
        simp only
        by_cases hf : (removeGo (getClassTokens el.className) ns).1 = []
        · rw [hf]
          have : getClassTokens (joinSp ([] : List Str)) = [[]] := rfl
          rw [this]
          simpa using (wfName_spec n0 (hns n0 hn0)).1
        · rw [tokens_joinSp_wf _ hf hfwf]
          rw [removeGo_eq]
          rw [remAux_mem ns _ false hnd n0]
          tauto
  · -- toggleClass twice restores membership
    intro m hm
    have h1 := toggle_memb el ns hel hns
    have h2 := toggle_memb (toggleClassFb el (.listI ns)) ns h1.1 hns
    have e1 := h1.2 m hm
    have e2 := h2.2 m hm
    rw [Bool.eq_iff_iff]
    rw [hasClass_true_iff, hasClass_true_iff]
    simp only [List.mem_singleton, forall_eq]
    rw [e2, e1]
    by_cases hp : m ∈ getClassTokens el.className <;>
      by_cases hq : ns.count m % 2 = 0 <;> simp [hp, hq]
  · -- hasClass is a logical AND over the listed names
    rw [hasClass_true_iff]
    constructor
    · intro h n hn
      rw [hasClass_true_iff]
      intro x hx
      rw [List.mem_singleton] at hx
      subst hx
      exact h x hn
    · intro h n hn
      have := (hasClass_true_iff el [n]).mp (h n hn) n (by simp)
      exact this

/-- Witness for C4 at a concrete element with class `"a"` and names
`['a', 'b']`. -/
theorem c4_class_amended_witness :
    hasClassFb ((addClassFb sampleElA (.listI [['a'], ['b']])).1)
      (.listI [['a'], ['b']]) = true ∧
    hasClassFb ((removeClassFb sampleElA (.listI [['a'], ['b']])).1)
      (.listI [['a'], ['b']]) = false ∧
    hasClassFb (toggleClassFb (toggleClassFb sampleElA (.listI [['a'], ['b']]))
        (.listI [['a'], ['b']])) (.listI [['a']]) =
      hasClassFb sampleElA (.listI [['a']]) :=
  ⟨(c4_class_amended sampleElA [['a'], ['b']] (by decide) (by decide) (by decide)).1,
   (c4_class_amended sampleElA [['a'], ['b']] (by decide) (by decide) (by decide)).2.1,
   (c4_class_amended sampleElA [['a'], ['b']] (by decide) (by decide)
      (by decide)).2.2.1 ['a'] (by decide)⟩

/-! ## Claim theorems: class-attribute write-back discipline (C7) -/

/-- C7 counterexample: the fallback `toggleClass` writes the class
attribute unconditionally.  On class `"a "` with names `['b','b']` the
membership is unchanged (the `'b'` toggles cancel) yet the attribute is
rewritten to a different string — so "write back only if the membership
actually changed" is false. -/
theorem c7_writeback_counterexample :
    (toggleClassFb sampleElTrail (.listI [['b'], ['b']])).className ≠
      sampleElTrail.className ∧
    getClassTokens (toggleClassFb sampleElTrail (.listI [['b'], ['b']])).className =
      getClassTokens sampleElTrail.className := by decide

/-- C7 (amended): the fallback `addClass` and `removeClass` write the class
attribute back only when membership actually changed (no write when adding
present classes or removing absent ones, and a write implies a membership
change), while the fallback `toggleClass` reassigns the joined token list
unconditionally; all three touch nothing but the `className` field. -/
theorem c7_writeback_amended (el : Elem) (ns : List Str) :
    ((∀ n ∈ ns, n ∈ getClassTokens el.className) →
      addClassFb el (.listI ns) = (el, false)) ∧
    ((addClassFb el (.listI ns)).2 = true →
      ∃ n ∈ ns, n ∉ getClassTokens el.className) ∧
    ((∀ n ∈ ns, n ∉ getClassTokens el.className) →
      removeClassFb el (.listI ns) = (el, false)) ∧
    ((removeClassFb el (.listI ns)).2 = true →
      ∃ n ∈ ns, n ∈ getClassTokens el.className) ∧
    toggleClassFb el (.listI ns) =
      { el with className := joinSp (togGo (getClassTokens el.className) ns) } ∧
    (addClassFb el (.listI ns)).1 =
      { el with className := (addClassFb el (.listI ns)).1.className } ∧
    (removeClassFb el (.listI ns)).1 =
      { el with className := (removeClassFb el (.listI ns)).1.className } ∧
    toggleClassFb el (.listI ns) =
      { el with className := (toggleClassFb el (.listI ns)).className } := by
  refine ⟨?_, ?_, ?_, ?_, rfl, ?_, ?_, rfl⟩
  · intro h
    have hg : addGo (getClassTokens el.className) ns =
        (getClassTokens el.className, false) := by
      rw [addGo_eq]
      exact addAux_all_mem ns _ false h
    simp [addClassFb, resolveNames, hg]
  · intro hf
    by_contra hc
    push_neg at hc
    have hg : addGo (getClassTokens el.className) ns =
        (getClassTokens el.className, false) := by
      rw [addGo_eq]
      exact addAux_all_mem ns _ false hc
    rw [show (addClassFb el (.listI ns)).2 =
      (addGo (getClassTokens el.className) ns).2 from rfl, hg] at hf
    simp at hf
  · intro h
    have hg : removeGo (getClassTokens el.className) ns =
        (getClassTokens el.className, false) := by
      rw [removeGo_eq]
      exact remAux_none ns _ false h
    simp [removeClassFb, resolveNames, hg]
  · intro hf
    by_contra hc
    push_neg at hc
    have hg : removeGo (getClassTokens el.className) ns =
        (getClassTokens el.className, false) := by
      rw [removeGo_eq]
      exact remAux_none ns _ false hc
    rw [show (removeClassFb el (.listI ns)).2 =
      (removeGo (getClassTokens el.className) ns).2 from rfl, hg] at hf
    simp at hf
  · cases hflag : (addGo (getClassTokens el.className) ns).2 with
    | false => rw [addClassFb_flag_false el ns hflag]
    | true => rw [addClassFb_flag_true el ns hflag]
  · cases hflag : (removeGo (getClassTokens el.className) ns).2 with
    | false => rw [removeClassFb_flag_false el ns hflag]
    | true => rw [removeClassFb_flag_true el ns hflag]

/-- Witness for C7: adding an already-present class performs no write. -/
theorem c7_writeback_amended_witness :
    (∀ n ∈ [(['a'] : Str)], n ∈ getClassTokens sampleElA.className) ∧
    addClassFb sampleElA (.listI [['a']]) = (sampleElA, false) :=
  ⟨by decide, (c7_writeback_amended sampleElA [['a']]).1 (by decide)⟩

/-! ## Identity-preservation lemmas for the document-level operations -/

theorem setup_fold_id (al : List (String × String)) : ∀ (e : Elem),
    (al.foldl (fun e nv =>
      if nv.1 = "_text" then { e with textContent := nv.2 }
      else if nv.1 = "_html" then { e with innerHTML := nv.2 }
      else setAttributeE e nv.1 nv.2) e).id = e.id := by
  induction al with
  | nil => intro e; rfl
  | cons nv al ih =>
    intro e
    rw [List.foldl_cons]
    rw [ih]
    by_cases h1 : nv.1 = "_text"
    · simp [h1]
    · by_cases h2 : nv.1 = "_html" <;> simp [h1, h2, setAttributeE]

theorem addClassFb_id (e : Elem) (names : ClassNames) :
    (addClassFb e names).1.id = e.id := by
  unfold addClassFb
  dsimp only
  split <;> rfl

theorem removeClassFb_id (e : Elem) (names : ClassNames) :
    (removeClassFb e names).1.id = e.id := by
  unfold removeClassFb
  dsimp only
  split <;> rfl

theorem setDataE_id (e : Elem) (k : String) (v : JSPrim) :
    (setDataE e k v).id = e.id := by
  unfold setDataE
  cases e.dataset <;> rfl

/-! ## Claim theorems: selector acceptance and chaining (C10) -/

/-- C10: every listed operation resolves a CSS-selector argument to the
first matching element of the whole document (via `resolveNode`/`query`)
before running — passing a selector is the same as passing that element —
and each mutating operation returns the resolved subject node (same node
identity), enabling chaining; the scope argument of `query`/`queryAll` is
resolved the same way. -/
theorem c10_selector_dispatch (doc : DocM) (s : Sel) (el : Elem)
    (h : querySelector doc s = some el) :
    resolveNodeD doc (.sel s) = some el ∧
    (∀ al, setupOp doc (.sel s) al = setupOp doc (.node el) al) ∧
    (∀ al, (setupOp doc (.sel s) al).map (fun r => r.2.id) = some el.id) ∧
    (∀ ns, addClassOp doc (.sel s) ns = addClassOp doc (.node el) ns) ∧
    (∀ ns, (addClassOp doc (.sel s) ns).map (fun r => r.2.id) = some el.id) ∧
    (∀ ns, removeClassOp doc (.sel s) ns = removeClassOp doc (.node el) ns) ∧
    (∀ ns, (removeClassOp doc (.sel s) ns).map (fun r => r.2.id) = some el.id) ∧
    (∀ ns, toggleClassOp doc (.sel s) ns = toggleClassOp doc (.node el) ns) ∧
    (∀ ns, (toggleClassOp doc (.sel s) ns).map (fun r => r.2.id) = some el.id) ∧
    (∀ ns, hasClassOp doc (.sel s) ns = hasClassOp doc (.node el) ns) ∧
    (∀ k v, setDataOp doc (.sel s) k v = setDataOp doc (.node el) k v) ∧
    (∀ k v, (setDataOp doc (.sel s) k v).map (fun r => r.2.id) = some el.id) ∧
    (∀ k, getDataOp doc (.sel s) k = getDataOp doc (.node el) k) ∧
    (∀ arg, appendOp doc (.sel s) arg = appendOp doc (.node el) arg) ∧
    (∀ arg, (appendOp doc (.sel s) arg).map (fun r => r.2.id) = some el.id) ∧
    (∀ arg, prependOp doc (.sel s) arg = prependOp doc (.node el) arg) ∧
    (∀ arg, (prependOp doc (.sel s) arg).map (fun r => r.2.id) = some el.id) ∧
    (∀ arg, beforeOp doc (.sel s) arg = beforeOp doc (.node el) arg) ∧
    (∀ arg res, beforeOp doc (.sel s) arg = some res → res.2.id = el.id) ∧
    (∀ arg, afterOp doc (.sel s) arg = afterOp doc (.node el) arg) ∧
    (∀ arg res, afterOp doc (.sel s) arg = some res → res.2.id = el.id) ∧
    (removeOpD doc (.sel s) = removeOpD doc (.node el)) ∧
    ((removeOpD doc (.sel s)).map (fun r => r.2.id) = some el.id) ∧
    (clearOp doc (.sel s) = clearOp doc (.node el)) ∧
    ((clearOp doc (.sel s)).map (fun r => r.2.id) = some el.id) ∧
    (∀ deep, cloneOp doc (.sel s) deep = cloneOp doc (.node el) deep) ∧
    (∀ q, closestOp doc (.sel s) q = closestOp doc (.node el) q) ∧
    (∀ (σ : Type) (cb : Elem → σ → σ) (init : σ),
      eachOp doc (.sel s) cb init = eachOp doc (.node el) cb init) ∧
    (∀ (σ : Type) (cb : Elem → σ → σ) (init : σ),
      (eachOp doc (.sel s) cb init).map (fun r => r.2.id) = some el.id) ∧
    (∀ en cb, onOp doc (.sel s) en cb = onOp doc (.node el) en cb) ∧
    (∀ en cb, (onOp doc (.sel s) en cb).map (fun r => r.2.id) = some el.id) ∧
    (∀ en cb, offOp doc (.sel s) en cb = offOp doc (.node el) en cb) ∧
    (∀ en cb, (offOp doc (.sel s) en cb).map (fun r => r.2.id) = some el.id) ∧
    (∀ dispatch, triggerOp doc (.sel s) dispatch = triggerOp doc (.node el) dispatch) ∧
    (∀ q, queryOp doc q (some (.sel s)) = queryOp doc q (some (.node el))) ∧
    (∀ q, queryAllOp doc q (some (.sel s)) = queryAllOp doc q (some (.node el))) := by
  have hres : resolveNodeD doc (.sel s) = some el := by
    simp [resolveNodeD, h]
  refine ⟨hres, ?_, ?_, ?_, ?_, ?_, ?_, ?_, ?_, ?_, ?_, ?_, ?_, ?_, ?_, ?_, ?_,
    ?_, ?_, ?_, ?_, ?_, ?_, ?_, ?_, ?_, ?_, ?_, ?_, ?_, ?_, ?_, ?_, ?_, ?_, ?_⟩
  · intro al
    simp only [setupOp, resolveNodeD, h]
  · intro al
    simp only [setupOp, hres, Option.map_some']
    rw [setup_fold_id]
  · intro ns
    simp only [addClassOp, resolveNodeD, h]
  · intro ns
    simp only [addClassOp, hres, Option.map_some']
    rw [addClassFb_id]
  · intro ns
    simp only [removeClassOp, resolveNodeD, h]
  · intro ns
    simp only [removeClassOp, hres, Option.map_some']
    rw [removeClassFb_id]
  · intro ns
    simp only [toggleClassOp, resolveNodeD, h]
  · intro ns
    simp only [toggleClassOp, hres, Option.map_some']
    rfl
  · intro ns
    simp only [hasClassOp, resolveNodeD, h]
  · intro k v
    simp only [setDataOp, resolveNodeD, h]
  · intro k v
    simp only [setDataOp, hres, Option.map_some']
    rw [setDataE_id]
  · intro k
    simp only [getDataOp, resolveNodeD, h]
  · intro arg
    simp only [appendOp, resolveNodeD, h]
  · intro arg
    cases arg <;> simp [appendOp, hres, insertAdjacent]
  · intro arg
    simp only [prependOp, resolveNodeD, h]
  · intro arg
    cases arg with
    | html str => simp [prependOp, hres, insertAdjacent]
    | nd n =>
      simp only [prependOp, hres, Option.map_some']
      cases firstChildD doc el.id <;> simp
  · intro arg
    simp only [beforeOp, resolveNodeD, h]
  · intro arg res hr
    cases arg with
    | html str =>
      simp only [beforeOp, hres, Option.some_bind, Option.some.injEq] at hr
      rw [← hr]
      rfl
    | nd n =>
      simp only [beforeOp, hres, Option.some_bind] at hr
      cases hp : parentNodeD doc el.id <;> rw [hp] at hr
      · simp at hr
      · simp only [Option.map_some', Option.some.injEq] at hr
        rw [← hr]
  · intro arg
    simp only [afterOp, resolveNodeD, h]
  · intro arg res hr
    cases arg with
    | html str =>
      simp only [afterOp, hres, Option.some_bind, Option.some.injEq] at hr
      rw [← hr]
      rfl
    | nd n =>
      simp only [afterOp, hres, Option.some_bind] at hr
      cases hn : nextSiblingD doc el.id <;> rw [hn] at hr <;>
        cases hp : parentNodeD doc el.id <;> rw [hp] at hr
      all_goals
        first
        | (simp only [Option.map_some', Option.some.injEq] at hr
           rw [← hr])
        | simp at hr
  · simp only [removeOpD, resolveNodeD, h]
  · simp only [removeOpD, hres, Option.map_some']
    cases parentNodeD doc el.id <;> simp
  · simp only [clearOp, resolveNodeD, h]
  · simp only [clearOp, hres, Option.map_some']
  · intro deep
    simp only [cloneOp, resolveNodeD, h]
  · intro q
    simp only [closestOp, resolveNodeD, h]
  · intro σ cb init
    simp only [eachOp, resolveNodeD, h]
  · intro σ cb init
    simp only [eachOp, hres, Option.map_some']
  · intro en cb
    simp only [onOp, resolveNodeD, h]
  · intro en cb
    simp only [onOp, hres, Option.map_some']
  · intro en cb
    simp only [offOp, resolveNodeD, h]
  · intro en cb
    simp only [offOp, hres, Option.map_some']
  · intro dispatch
    simp only [triggerOp, resolveNodeD, h]
  · intro q
    simp only [queryOp, resolveNodeD, h]
  · intro q
    simp only [queryAllOp, resolveNodeD, h]

/-- Witness for C10 at a concrete one-element document. -/
theorem c10_selector_dispatch_witness :
    querySelector sampleDoc sampleSel = some sampleEl ∧
    resolveNodeD sampleDoc (.sel sampleSel) = some sampleEl ∧
    removeOpD sampleDoc (.sel sampleSel) = removeOpD sampleDoc (.node sampleEl) :=
  ⟨rfl, (c10_selector_dispatch sampleDoc sampleSel sampleEl rfl).1,
   (c10_selector_dispatch sampleDoc sampleSel sampleEl
      rfl).2.2.2.2.2.2.2.2.2.2.2.2.2.2.2.2.2.2.2.2.2.1⟩

end Minidom
